import Mathlib

/-!
Verification development for the blocklock-frontend-kit time-locked media
release pipeline.  The definitions below are shallow embeddings of the
TypeScript source under `src/` (hooks `useMediaRelease`, `useFilecoinUpload`,
the viewer hook `useMediaReleaseViewer`, and the viewer page), translated
function by function.  External library primitives (ethers' keccak256 and
UTF-8 codecs, the RPC provider, Web Crypto AEAD) are modelled as explicit
oracle parameters.  Machine numbers are modelled as `Int`/`Nat`; JavaScript's
distinction between `number` and `bigint` is kept only where it changes
control flow (mixed-type arithmetic throws a `TypeError`).
-/

set_option maxRecDepth 4096
set_option linter.unusedVariables false
set_option linter.unreachableTactic false
set_option linter.unusedTactic false

namespace MediaReleaseKit

/-! ## JSON values

Model of the JavaScript JSON values the code moves through `JSON.stringify` /
`JSON.parse` (`useMediaRelease.ts` builds the reveal payload with
`JSON.stringify(payloadObj)`; `decryptMetadata` recovers it with
`JSON.parse`).  Numeric literals are modelled as integers: the only numeric
field a reveal payload carries is the byte count `s`.  Fractional and
exponent literals (IEEE floats) are outside the modelled subset. -/

inductive Json where
  | null
  | str (s : String)
  | num (n : Int)
  | bool (tv : Bool)
  | arr (items : List Json)
  | obj (fields : List (String × Json))

/-- JavaScript truthiness of a JSON value (`if (payload)`, `payload.k &&`,
`payload.n || ...`): `null`, `false`, `0` and `""` are falsy; every object
and array is truthy. -/
def Json.truthy : Json → Bool
  | .null => false
  | .str s => s != ""
  | .num n => n != 0
  | .bool tv => tv
  | .arr _ => true
  | .obj _ => true

/-- JavaScript property access `payload.k` on a parsed JSON value.  Only
objects have the payload fields; `JSON.parse` keeps the last duplicate key,
hence the reversed lookup.  Access on a non-object yields `undefined`,
modelled as `none`. -/
def Json.get? : Json → String → Option Json
  | .obj fields, key => (fields.reverse.find? (fun f => f.1 == key)).map (fun f => f.2)
  | _, _ => none

/-- Truthiness of a possibly-`undefined` JavaScript value (`undefined` is
falsy). -/
def jsTruthy : Option Json → Bool
  | some j => j.truthy
  | none => false

/-! ### `JSON.stringify` string quoting -/

/-- Lower-case hex digit, as emitted by `JSON.stringify` in `\u00XX`
escapes. -/
def hexDigitChar (n : Nat) : Char :=
  if 9 < n then Char.ofNat (87 + n) else Char.ofNat (48 + n)

/-- The `\u00XX` escape of a control character with code `v < 32`. -/
def ctlEscape (v : Nat) : List Char :=
  let hi := hexDigitChar (v / 16)
  let lo := hexDigitChar (v % 16)
  '\\' :: 'u' :: '0' :: '0' :: hi :: [lo]

/-- The escape `JSON.stringify` applies to one character of a string
literal: `"` and `\` are backslash-escaped, the named control escapes are
used for backspace, tab, newline, form feed and carriage return, any other
control character becomes `\u00XX`, and everything else is copied
verbatim. -/
def escapeChar (c : Char) : List Char :=
  if c = '"' then ['\\', '"']
  else if c = '\\' then ['\\', '\\']
  else if c.toNat = 8 then ['\\', 'b']
  else if c.toNat = 9 then ['\\', 't']
  else if c.toNat = 10 then ['\\', 'n']
  else if c.toNat = 12 then ['\\', 'f']
  else if c.toNat = 13 then ['\\', 'r']
  else if c.toNat < 32 then ctlEscape c.toNat
  else [c]

/-- Body of a `JSON.stringify` string literal (without the surrounding
quotes). -/
def escapeString (s : String) : List Char :=
  (s.data.map escapeChar).flatten

/-- Decimal digit character. -/
def digitChar (n : Nat) : Char := Char.ofNat (48 + n)

/-- Decimal rendering of a natural number, as `JSON.stringify` renders a
non-negative integer. -/
def natChars (n : Nat) : List Char :=
  if 0 < n then (Nat.digits 10 n).reverse.map digitChar else ['0']

/-- Decimal rendering of an integer. -/
def intChars (n : Int) : List Char :=
  if n < 0 then '-' :: natChars (-n).toNat else natChars n.toNat

mutual

/-- `JSON.stringify` (compact form, no spacing — the form the source uses). -/
def serializeJson : Json → List Char
  | .null => "null".data
  | .bool true => "true".data
  | .bool false => "false".data
  | .num n => intChars n
  | .str s => '"' :: (escapeString s ++ ['"'])
  | .arr es => '[' :: (serializeElems es ++ [']'])
  | .obj fs => '{' :: (serializeFields fs ++ ['}'])

/-- Comma-separated array elements. -/
def serializeElems : List Json → List Char
  | [] => []
  | [e] => serializeJson e
  | e :: es => serializeJson e ++ ',' :: serializeElems es

/-- Comma-separated `"key":value` object fields. -/
def serializeFields : List (String × Json) → List Char
  | [] => []
  | [f] => '"' :: (escapeString f.1 ++ '"' :: ':' :: serializeJson f.2)
  | f :: fs => ('"' :: (escapeString f.1 ++ '"' :: ':' :: serializeJson f.2)) ++ ',' :: serializeFields fs

end

/-! ### `JSON.parse` -/

/-- JSON whitespace. -/
def isWs (c : Char) : Bool := c = ' ' || c = '\t' || c = '\n' || c = '\r'

/-- Skip leading JSON whitespace. -/
def skipWs : List Char → List Char
  | c :: rest => if isWs c then skipWs rest else c :: rest
  | [] => []

/-- Value of a hexadecimal digit character. -/
def hexVal (c : Char) : Option Nat :=
  if 48 ≤ c.toNat ∧ c.toNat ≤ 57 then some (c.toNat - 48)
  else if 97 ≤ c.toNat ∧ c.toNat ≤ 102 then some (c.toNat - 87)
  else if 65 ≤ c.toNat ∧ c.toNat ≤ 70 then some (c.toNat - 55)
  else none

/-- Named single-character escapes accepted inside a JSON string literal:
a quote, backslash or slash stands for itself, and `n`/`r`/`t`/`b`/`f`
stand for the usual control characters. -/
def escCode (e : Char) : Option Char :=
  if e = '"' ∨ e = '\\' ∨ e = '/' then some e
  else if e = 'n' then some '\n'
  else if e = 'r' then some '\r'
  else if e = 't' then some '\t'
  else if e = 'b' then some (Char.ofNat 8)
  else if e = 'f' then some (Char.ofNat 12)
  else none

/-- Read the body of a JSON string literal after the opening quote, up to the
closing quote; returns the decoded characters and the rest of the input.
`\uXXXX` escapes decode four hex digits; raw control characters are
rejected, as `JSON.parse` rejects them. -/
def readStr : List Char → Option (List Char × List Char)
  | [] => none
  | c :: rest =>
      if c = '"' then some ([], rest)
      else if c = '\\' then
        match rest with
        | [] => none
        | e :: rest2 =>
            if e = 'u' then
              match rest2 with
              | h1 :: h2 :: h3 :: h4 :: rest3 => do
                  let v1 ← hexVal h1
                  let v2 ← hexVal h2
                  let v3 ← hexVal h3
                  let v4 ← hexVal h4
                  let p ← readStr rest3
                  some (Char.ofNat (((v1 * 16 + v2) * 16 + v3) * 16 + v4) :: p.1, p.2)
              | _ => none
            else do
              let ec ← escCode e
              let p ← readStr rest2
              some (ec :: p.1, p.2)
      else if c.toNat < 32 then none
      else do
        let p ← readStr rest
        some (c :: p.1, p.2)

/-- Fold a run of decimal digit characters into a number. -/
def ofDigitChars (cs : List Char) : Nat :=
  cs.foldl (fun a c => a * 10 + (c.toNat - 48)) 0

/-- Read a non-negative integer literal (one or more digits). -/
def parseNatNum (l : List Char) : Option (Nat × List Char) :=
  let p := l.span (fun c => c.isDigit)
  if p.1 = [] then none else some (ofDigitChars p.1, p.2)

/-- Read an integer literal with optional leading minus. -/
def parseNum (l : List Char) : Option (Int × List Char) :=
  match l with
  | [] => none
  | c :: rest =>
      if c = '-' then (parseNatNum rest).map (fun p => (-(p.1 : Int), p.2))
      else (parseNatNum l).map (fun p => ((p.1 : Int), p.2))

mutual

/-- Recursive-descent `JSON.parse` for the modelled subset (integers in
place of general IEEE numbers).  The fuel argument only bounds recursion
depth; `parseJson` supplies one unit per input character plus one, which is
ample because every recursive step consumes at least one character. -/
def parseVal : Nat → List Char → Option (Json × List Char)
  | 0, _ => none
  | fuel+1, l =>
    match skipWs l with
    | [] => none
    | c :: rest =>
        if c = 'n' then
          if rest.take 3 = ['u', 'l', 'l'] then some (.null, rest.drop 3) else none
        else if c = 't' then
          if rest.take 3 = ['r', 'u', 'e'] then some (.bool true, rest.drop 3) else none
        else if c = 'f' then
          if rest.take 4 = ['a', 'l', 's', 'e'] then some (.bool false, rest.drop 4) else none
        else if c = '"' then
          (readStr rest).map (fun p => (.str (String.mk p.1), p.2))
        else if c = '[' then
          match skipWs rest with
          | [] => none
          | c2 :: rest2 =>
              if c2 = ']' then some (.arr [], rest2)
              else (parseElems fuel (c2 :: rest2)).map (fun p => (.arr p.1, p.2))
        else if c = '{' then
          match skipWs rest with
          | [] => none
          | c2 :: rest2 =>
              if c2 = '}' then some (.obj [], rest2)
              else (parseFields fuel (c2 :: rest2)).map (fun p => (.obj p.1, p.2))
        else
          (parseNum (c :: rest)).map (fun p => (.num p.1, p.2))

/-- One or more comma-separated array elements up to `]`. -/
def parseElems : Nat → List Char → Option (List Json × List Char)
  | 0, _ => none
  | fuel+1, l => do
      let p ← parseVal fuel l
      match skipWs p.2 with
      | [] => none
      | c :: rest =>
          if c = ',' then do
            let q ← parseElems fuel rest
            some (p.1 :: q.1, q.2)
          else if c = ']' then some ([p.1], rest)
          else none

/-- One or more comma-separated `"key":value` fields up to `}`. -/
def parseFields : Nat → List Char → Option (List (String × Json) × List Char)
  | 0, _ => none
  | fuel+1, l =>
      match skipWs l with
      | [] => none
      | c :: rest =>
          if c = '"' then do
            let k ← readStr rest
            match skipWs k.2 with
            | [] => none
            | c2 :: rest2 =>
                if c2 = ':' then do
                  let v ← parseVal fuel rest2
                  match skipWs v.2 with
                  | [] => none
                  | c3 :: rest3 =>
                      if c3 = ',' then do
                        let fs ← parseFields fuel rest3
                        some ((String.mk k.1, v.1) :: fs.1, fs.2)
                      else if c3 = '}' then some ([(String.mk k.1, v.1)], rest3)
                      else none
                else none
          else none

end

/-- `JSON.parse`: parse one value and require only whitespace to follow;
`none` models the thrown `SyntaxError`. -/
def parseJson (s : String) : Option Json :=
  match parseVal (s.length + 1) s.data with
  | some (v, rest) => if skipWs rest = [] then some v else none
  | none => none

/-! ## Release data model

`MediaReleaseInfo` from `useMediaReleaseViewer` (`src/unnamed/part_001`).
`requestId` and `unlockAtBlock` are `bigint` (uint256/uint40) in the source
and are modelled as `Nat`; the optional fields are TypeScript optionals. -/

structure MediaReleaseInfo where
  requestId : Nat
  creator : String
  fileCidHash : String
  unlockAtBlock : Nat
  isRevealed : Bool
  revealed : Option String
  currentBlock : Option Int
  isUnlocked : Option Bool
  deriving DecidableEq

/-- `MediaMetadata` as produced by `decryptMetadata`.  The source object is
built from dynamically-typed JSON fields (`payload.n || "encrypted-file"`
keeps whatever JSON value `payload.n` holds when it is truthy), so the
fields are modelled as JSON values.  `timestamp` is
`new Date().toISOString()`, an input of the model. -/
structure MediaMetadata where
  filename : Json
  size : Json
  type : Json
  fileCid : Json
  decryptionKey : Json
  timestamp : String

/-! ## Release state store (the viewer's `releases` list)

The three writers to `setReleases` in `useMediaReleaseViewer`:
`fetchReleases` (map-merge of freshly scanned items), `checkReleaseStatus`
(in-place update of one record), and the localStorage loader in the mount
effect (inserts records whose id is not present yet).  JavaScript `Map`
iteration preserves insertion order and `set` on an existing key keeps the
original position, which the association-list model reproduces. -/

/-- JS `{ ...(old || {}), ...item }` for two `MediaReleaseInfo` views.  The
object literals the source spreads (`fetchReleases` lines 219–228,
`getReleaseById` lines 273–282) list every field of the interface as an own
property — including those whose value is `undefined` — so the spread takes
`item`'s value for every field. -/
def spreadInfo (old : Option MediaReleaseInfo) (item : MediaReleaseInfo) : MediaReleaseInfo :=
  { requestId := item.requestId
    creator := item.creator
    fileCidHash := item.fileCidHash
    unlockAtBlock := item.unlockAtBlock
    isRevealed := item.isRevealed
    revealed := item.revealed
    currentBlock := item.currentBlock
    isUnlocked := item.isUnlocked }

/-- `Map.set`: replace in place if the key exists, else append. -/
def mapSet (m : List (Nat × MediaReleaseInfo)) (key : Nat) (v : MediaReleaseInfo) :
    List (Nat × MediaReleaseInfo) :=
  match m with
  | [] => [(key, v)]
  | (k, r) :: rest => if k = key then (key, v) :: rest else (k, r) :: mapSet rest key v

/-- `Map.get`. -/
def mapGet (m : List (Nat × MediaReleaseInfo)) (key : Nat) : Option MediaReleaseInfo :=
  (m.find? (fun e => e.1 = key)).map (fun e => e.2)

/-- `new Map(prev.map(r => [r.requestId.toString(), r]))`. -/
def mapFromList (prev : List MediaReleaseInfo) : List (Nat × MediaReleaseInfo) :=
  prev.foldl (fun m r => mapSet m r.requestId r) []

/-- Stable insertion for the descending `requestId` sort. -/
def insertDesc (x : MediaReleaseInfo) : List MediaReleaseInfo → List MediaReleaseInfo
  | [] => [x]
  | y :: ys => if x.requestId ≥ y.requestId then x :: y :: ys else y :: insertDesc x ys

/-- `.sort((a, b) => Number(b.requestId - a.requestId))`: stable sort by
descending `requestId`. -/
def sortByIdDesc (l : List MediaReleaseInfo) : List MediaReleaseInfo :=
  l.foldr insertDesc []

/-- The `setReleases` merge in `fetchReleases` (lines 234–241): build a map
keyed by `requestId` from the previous list, spread each new item over the
existing record, and return the values freshly sorted by descending id. -/
def fetchMerge (prev newItems : List MediaReleaseInfo) : List MediaReleaseInfo :=
  let byId := mapFromList prev
  let merged := newItems.foldl
    (fun m item => mapSet m item.requestId (spreadInfo (mapGet m item.requestId) item)) byId
  sortByIdDesc (merged.map (fun e => e.2))

/-- The `setReleases` update in `checkReleaseStatus` (lines 404–411):
`prev.map(r => r.requestId === requestId ? { ...r, ...release } : r)`. -/
def checkMerge (prev : List MediaReleaseInfo) (requestId : Nat)
    (release : MediaReleaseInfo) : List MediaReleaseInfo :=
  prev.map (fun r => if r.requestId = requestId then spreadInfo (some r) release else r)

/-- The localStorage loader's `setReleases` (lines 461–467): keep only the
stored records whose id is not present yet, prepend them, and sort. -/
def localLoadMerge (prev localReleases : List MediaReleaseInfo) : List MediaReleaseInfo :=
  let existingIds := prev.map (fun r => r.requestId)
  let newReleases := localReleases.filter (fun r => ¬ r.requestId ∈ existingIds)
  sortByIdDesc (newReleases ++ prev)

/-! ## Reveal payload builder (`useMediaRelease.ts`, lines 63–69) -/

/-- `MediaReleaseRequest` from `useMediaRelease.ts`.  `blocksAhead` is a
string converted with `Number(...)` at use; it is modelled as the converted
integer. -/
structure MediaReleaseRequest where
  fileCid : String
  decryptionKey : String
  blocksAhead : Int
  filename : Option String
  filetype : Option String
  filesize : Option Nat

/-- The payload object built by `createMediaRelease`: `k` and `c` always,
`n`/`t` only when the corresponding request field is truthy (so an empty
string is omitted), `s` whenever `filesize` is a number (including `0`). -/
def payloadFields (r : MediaReleaseRequest) : List (String × Json) :=
  [("k", Json.str r.decryptionKey), ("c", Json.str r.fileCid)]
    ++ (match r.filename with
        | some n => if n = "" then [] else [("n", Json.str n)]
        | none => [])
    ++ (match r.filetype with
        | some t => if t = "" then [] else [("t", Json.str t)]
        | none => [])
    ++ (match r.filesize with
        | some s => [("s", Json.num (s : Int))]
        | none => [])

/-- `JSON.stringify(payloadObj)`: the serialized reveal payload.  (The
source then applies `ethers.toUtf8Bytes`, whose inverse
`ethers.toUtf8String` is applied before parsing; the byte-level round trip
is the ethers library's contract and the model works on the decoded
string.) -/
def payloadJson (r : MediaReleaseRequest) : String :=
  String.mk (serializeJson (Json.obj (payloadFields r)))

/-! ## Reveal verifier (`decryptMetadata`, `src/unnamed/part_001`
lines 289–329) -/

/-- `String.prototype.toLowerCase()` on the ASCII hex strings the hash
comparison handles. -/
def lowerString (s : String) : String :=
  String.mk (s.data.map Char.toLower)

/-- JS `x || d` on a possibly-undefined JSON value. -/
def jsOr (v : Option Json) (dflt : Json) : Json :=
  match v with
  | some j => if j.truthy then j else dflt
  | none => dflt

/-- The metadata object returned on the structured-payload path
(lines 305–312). -/
def metaFromPayload (payload : Json) (nowIso : String) : MediaMetadata :=
  { filename := jsOr (payload.get? "n") (Json.str "encrypted-file")
    size := jsOr (payload.get? "s") (Json.num 0)
    type := jsOr (payload.get? "t") (Json.str "application/octet-stream")
    fileCid := (payload.get? "c").getD Json.null
    decryptionKey := (payload.get? "k").getD Json.null
    timestamp := nowIso }

/-- The fallback metadata (lines 315–324): the whole decoded string is
treated as the bare key and no locator is produced. -/
def fallbackMeta (revealedJson : String) (nowIso : String) : MediaMetadata :=
  { filename := Json.str "encrypted-file"
    size := Json.num 0
    type := Json.str "application/octet-stream"
    fileCid := Json.str ""
    decryptionKey := Json.str revealedJson
    timestamp := nowIso }

/-- `decryptMetadata(revealedData, release?)`.  `keccakHex` models
`s => ethers.keccak256(ethers.toUtf8Bytes(s))` (an external library
primitive) and `revealedJson` is the `ethers.toUtf8String` decoding of the
revealed bytes.  `none` models the `catch` path returning `null`: the hash
mismatch throw, or `ethers.toUtf8Bytes(payload.c)` throwing on a non-string
locator.  The hash comparison runs only when a release with a truthy
`fileCidHash` is supplied. -/
def decryptMetadata (keccakHex : String → String) (nowIso : String)
    (revealedJson : String) (release : Option MediaReleaseInfo) : Option MediaMetadata :=
  let payload? := parseJson revealedJson
  match payload? with
  | some payload =>
      if payload.truthy && jsTruthy (payload.get? "k") && jsTruthy (payload.get? "c") then
        match release with
        | some rel =>
            if rel.fileCidHash ≠ "" then
              match payload.get? "c" with
              | some (Json.str cs) =>
                  if lowerString (keccakHex cs) ≠ lowerString rel.fileCidHash then none
                  else some (metaFromPayload payload nowIso)
              | _ => none
            else some (metaFromPayload payload nowIso)
        | none => some (metaFromPayload payload nowIso)
      else some (fallbackMeta revealedJson nowIso)
  | none => some (fallbackMeta revealedJson nowIso)

/-! ## Viewer selection flow (`handleReleaseSelect`,
`src/hooks/useFilecoinUpload.ts` viewer-page part, lines 188–215) -/

/-- The viewer component state touched by `handleReleaseSelect`.  The media
preview URL is produced by a network fetch and is outside the model. -/
structure ViewerState where
  releases : List MediaReleaseInfo
  selectedRelease : Option MediaReleaseInfo
  decryptedMetadata : Option MediaMetadata

/-- `handleReleaseSelect(release)`: select the release, clear the decrypted
metadata, and when the release is revealed with a truthy payload call
`decryptMetadata(release.revealed)` — with no release argument, so no hash
verification happens on this path.  The `releases` list is never written. -/
def handleReleaseSelect (keccakHex : String → String) (nowIso : String)
    (st : ViewerState) (release : MediaReleaseInfo) : ViewerState :=
  let base : ViewerState :=
    { releases := st.releases, selectedRelease := some release, decryptedMetadata := none }
  if release.isRevealed then
    match release.revealed with
    | some s =>
        if s ≠ "" then
          { base with decryptedMetadata := decryptMetadata keccakHex nowIso s none }
        else base
    | none => base
  else base

/-! ## Chain event scanner (`getLogsChunked`, `withRetry`,
`fetchRevealedPayload` in `src/unnamed/part_001`)

The provider's `getLogs` is an oracle `Int → Int → Except Unit (List α)`
mapping a block range to raw log entries or a provider failure.  Scanner
functions also return the trace of `getLogs` invocations (the block range
of each call, in order), so that claims about call counts and boundaries
are expressible. -/

/-- The chunk loop of `getLogsChunked` (lines 60–75): starting at `start`,
fetch `[start, min (start+chunkSize-1) toBlock]`, accumulate the results of
successful chunks, skip a failed chunk with a warning, and advance by
`chunkSize`.  The fuel argument only bounds the iteration count; the
wrapper supplies one unit per block in the window plus one, which is ample
since each iteration advances by `chunkSize ≥ 1`. -/
def getLogsChunkedAux {α : Type} (oracle : Int → Int → Except Unit (List α))
    (toBlock chunkSize : Int) : Nat → Int → List α × List (Int × Int)
  | 0, _ => ([], [])
  | fuel+1, start =>
      if start > toBlock then ([], [])
      else
        let e := min (start + chunkSize - 1) toBlock
        let chunkLogs := match oracle start e with
          | .ok ls => ls
          | .error _ => []
        let rest := getLogsChunkedAux oracle toBlock chunkSize fuel (start + chunkSize)
        (chunkLogs ++ rest.1, (start, e) :: rest.2)

/-- `getLogsChunked(filter, fromBlock, toBlock, chunkSize)`: the fetched
logs and the trace of per-chunk `getLogs` calls. -/
def getLogsChunked {α : Type} (oracle : Int → Int → Except Unit (List α))
    (fromBlock toBlock chunkSize : Int) : List α × List (Int × Int) :=
  getLogsChunkedAux oracle toBlock chunkSize ((toBlock - fromBlock).toNat + 1) fromBlock

/-- The chunk boundaries the loop walks: `[start, min (start+c-1) to]`,
advancing by `c`, while `start ≤ to`. -/
def chunkRangesAux (toBlock chunkSize : Int) : Nat → Int → List (Int × Int)
  | 0, _ => []
  | fuel+1, start =>
      if start > toBlock then []
      else (start, min (start + chunkSize - 1) toBlock) ::
        chunkRangesAux toBlock chunkSize fuel (start + chunkSize)

/-- Chunk boundaries for the window `[fromBlock, toBlock]`. -/
def chunkRanges (fromBlock toBlock chunkSize : Int) : List (Int × Int) :=
  chunkRangesAux toBlock chunkSize ((toBlock - fromBlock).toNat + 1) fromBlock

/-- `withRetry(fn, attempts = 2, delayMs = 500)` (lines 77–84): call the
thunk up to `attempts` times (the oracle is indexed by the attempt number),
sleeping `delayMs` between attempts, and rethrow the last error once the
attempts are exhausted.  It is applied to `getBlockNumber` and
`contract.metaOf` reads in `fetchReleases` — not to chunk fetches. -/
def withRetryAux {α : Type} (oracle : Nat → Except Unit α) : Nat → Nat → Except Unit α
  | 0, _ => .error ()
  | n+1, i =>
      match oracle i with
      | .ok a => .ok a
      | .error _ => withRetryAux oracle n (i + 1)

/-- `withRetry` with the default attempt count 2. -/
def withRetry {α : Type} (oracle : Nat → Except Unit α) (attempts : Nat := 2) :
    Except Unit α :=
  withRetryAux oracle attempts 0

/-- A decoded event log as `iface.parseLog` exposes it to
`fetchRevealedPayload`: the event name and the payload argument
(`parsed.args?.payload ?? parsed.args?.[1] ?? null`). -/
structure ParsedLog where
  name : String
  payload : Option String

/-- The log loop of `fetchRevealedPayload` (lines 135–154): return the
first log that parses to a `Revealed` event with a truthy payload; logs
that fail to parse are skipped. -/
def firstRevealed {α : Type} (parse : α → Option ParsedLog) : List α → Option String
  | [] => none
  | l :: ls =>
      match parse l with
      | some p =>
          if p.name = "Revealed" then
            match p.payload with
            | some s => if s ≠ "" then some s else firstRevealed parse ls
            | none => firstRevealed parse ls
          else firstRevealed parse ls
      | none => firstRevealed parse ls

/-- `fetchRevealedPayload(requestId, targetBlock?)` (lines 86–164), after
the provider has answered `getBlockNumber() = currentBlock`: the guard
returns `null` with no fetch when the chain is still more than
`prefetch` blocks before the target; otherwise the window is
`[max 0 (tb - prefetch), min currentBlock (tb + forward)]` (or the recent
fallback window `[max 0 (currentBlock - 500), currentBlock]` without a
target hint), scanned with `getLogsChunked`.  Returns the found payload (or
`none`) and the trace of per-chunk `getLogs` calls. -/
def fetchRevealedPayload {α : Type} (oracle : Int → Int → Except Unit (List α))
    (parse : α → Option ParsedLog) (currentBlock : Int) (targetBlock : Option Int)
    (prefetch forward chunkSize : Int) : Option String × List (Int × Int) :=
  match targetBlock with
  | some tb =>
      if currentBlock < tb - prefetch then (none, [])
      else
        let fromBlock := max 0 (tb - prefetch)
        let toBlock := min currentBlock (tb + forward)
        if fromBlock > toBlock then (none, [])
        else
          let res := getLogsChunked oracle fromBlock toBlock chunkSize
          (firstRevealed parse res.1, res.2)
  | none =>
      let fromBlock := max 0 (currentBlock - 500)
      let toBlock := currentBlock
      if fromBlock > toBlock then (none, [])
      else
        let res := getLogsChunked oracle fromBlock toBlock chunkSize
        (firstRevealed parse res.1, res.2)

/-! ## Ciphertext frame validation (`createMediaPreviewUrl` lines 344–352,
`downloadDecryptedFile` lines 374–382)

Both functions validate the AES-GCM frame `[0x01][12-byte IV][ciphertext]`
(WebCrypto appends the 16-byte tag to the ciphertext) with identical code;
the actual AEAD decryption is a WebCrypto primitive outside the model. -/

inductive FrameError where
  | ciphertextMalformed
  | unsupportedVersion
  deriving DecidableEq

/-- The frame checks: `length < 1 + 12 + 16` throws "Ciphertext too short"
(`CiphertextMalformed`), then a version byte other than `1` throws
"Unsupported ciphertext version" (`UnsupportedVersion`); otherwise the IV is
`slice(1, 13)` and the ciphertext `slice(13)`. -/
def decodeFrame (bytes : List Nat) : Except FrameError (List Nat × List Nat) :=
  if bytes.length < 1 + 12 + 16 then .error .ciphertextMalformed
  else
    match bytes with
    | v :: rest =>
        if v ≠ 1 then .error .unsupportedVersion
        else .ok (rest.take 12, rest.drop 12)
    | [] => .error .ciphertextMalformed

/-! ## Creation flow (`createMediaRelease` in `useMediaRelease.ts`)

The provider/contract interactions are modelled by an environment of their
results, and the flow returns the ordered trace of network calls it has
issued together with its outcome.  `encodeCondition` and
`blocklock.encrypt` are local cryptographic computations of blocklock-js
(no provider round trip), so they do not appear in the network trace. -/

inductive NetCall where
  | getBlockNumber
  | getFeeData
  | estimateRequestPrice
  | sendCreateTx
  | waitReceipt
  deriving DecidableEq

inductive CreateError where
  | targetBlockOverflow
  | noFeeData
  | contractCallFailed
  | txNotConfirmed
  | createdEventMissing
  deriving DecidableEq

/-- `MediaReleaseResult` from `useMediaRelease.ts`. -/
structure MediaReleaseResult where
  requestId : Nat
  targetBlock : Int
  createdAtBlock : Int
  txHash : String
  deriving DecidableEq

/-- Results of the external collaborators consulted by the creation flow. -/
structure CreateEnv where
  currentBlock : Int
  maxFeePerGas : Option Int
  requestPrice : Int
  txSucceeds : Bool
  receiptOk : Bool
  createdRequestId : Option Nat
  txHash : String

/-- `2**40 - 1`, the on-chain `uint40` height maximum. -/
def MAX_UINT40 : Int := 2 ^ 40 - 1

/-- `createMediaRelease(request)` (lines 41–174): read the block number,
compute `targetBlock = currentBlock + blocksAhead`, reject with
`TargetBlockOverflow` when it exceeds `2**40 - 1`, then encrypt the payload
locally, query fee data, estimate the request price, submit the funded
contract call and wait for the receipt, extracting the `Created` event's
`requestId`. -/
def createMediaRelease (env : CreateEnv) (request : MediaReleaseRequest) :
    List NetCall × Except CreateError MediaReleaseResult :=
  let targetBlock := env.currentBlock + request.blocksAhead
  if targetBlock > MAX_UINT40 then
    ([.getBlockNumber], .error .targetBlockOverflow)
  else
    match env.maxFeePerGas with
    | none => ([.getBlockNumber, .getFeeData], .error .noFeeData)
    | some _ =>
        if ¬ env.txSucceeds then
          ([.getBlockNumber, .getFeeData, .estimateRequestPrice, .sendCreateTx],
            .error .contractCallFailed)
        else if ¬ env.receiptOk then
          ([.getBlockNumber, .getFeeData, .estimateRequestPrice, .sendCreateTx, .waitReceipt],
            .error .txNotConfirmed)
        else
          match env.createdRequestId with
          | none =>
              ([.getBlockNumber, .getFeeData, .estimateRequestPrice, .sendCreateTx, .waitReceipt],
                .error .createdEventMissing)
          | some rid =>
              ([.getBlockNumber, .getFeeData, .estimateRequestPrice, .sendCreateTx, .waitReceipt],
                .ok { requestId := rid
                      targetBlock := targetBlock
                      createdAtBlock := env.currentBlock
                      txHash := env.txHash })

/-! ## Countdown estimator (`getTimeRemaining` in the viewer page,
`src/hooks/useFilecoinUpload.ts` lines 241–286)

`release.unlockAtBlock` is a `bigint` wherever it is set (ethers decodes
Solidity integers to `bigint`; the localStorage loader applies `BigInt`),
while `release.currentBlock` is a `number` (`provider.getBlockNumber()`).
JavaScript arithmetic that mixes a `bigint` with a `number` operand throws
a `TypeError`, so the dynamic numeric type is kept here. -/

/-- A JavaScript numeric value: a `number` or a `bigint`. -/
inductive JsNum where
  | num (n : Int)
  | big (n : Int)
  deriving DecidableEq

/-- JavaScript truthiness of a numeric value (`0` and `0n` are falsy). -/
def JsNum.truthy : JsNum → Bool
  | .num n => n != 0
  | .big n => n != 0

/-- JavaScript binary `-` on dynamic numeric values: mixing `bigint` and
`number` throws `TypeError: Cannot mix BigInt and other types` (`none`). -/
def jsSub : JsNum → JsNum → Option Int
  | .num a, .num b => some (a - b)
  | .big a, .big b => some (a - b)
  | _, _ => none

/-- The `release_<requestId>` localStorage record as `getTimeRemaining`
reads it (absent fields of `JSON.parse('{}')` are `undefined`).
`targetBlock` is stored as a decimal string and converted with `Number`;
its stored string is never empty, so its truthiness is presence.
`createdAt` is `Date.now()`. -/
structure StoredRelease where
  createdAt : Option Int
  targetBlock : Option Int
  createdAtBlock : Option Int

/-- `String(n).padStart(2, "0")`. -/
def pad (n : Nat) : String :=
  if n < 10 then "0" ++ toString n else toString n

/-- The `hh:mm:ss` rendering shared by both countdown branches. -/
def formatHMS (totalSeconds : Nat) : String :=
  pad (totalSeconds / 3600) ++ ":" ++ pad (totalSeconds % 3600 / 60) ++ ":" ++ pad (totalSeconds % 60)

/-- `avgBlockSeconds = 2` in the viewer page. -/
def avgBlockSeconds : Int := 2

/-- The fallback branch of `getTimeRemaining` (lines 272–285): "Unknown"
when `currentBlock` or `unlockAtBlock` is missing/falsy, otherwise
`blocksRemaining = unlockAtBlock - currentBlock` (a mixed bigint/number
subtraction), "Unlocked!" at zero remaining, else the formatted
countdown. -/
def blockCountBranch (unlockAtBlock : JsNum) (currentBlock : Option JsNum) : Option String :=
  match currentBlock with
  | none => some "Unknown"
  | some cb =>
      if ¬ cb.truthy then some "Unknown"
      else if ¬ unlockAtBlock.truthy then some "Unknown"
      else
        match jsSub unlockAtBlock cb with
        | none => none
        | some blocksRemaining =>
            if blocksRemaining ≤ 0 then some "Unlocked!"
            else some (formatHMS (blocksRemaining * avgBlockSeconds).toNat)

/-- `getTimeRemaining(release)` at wall-clock time `now` (`Date.now()`):
when the stored creation record has truthy `createdAt` and `targetBlock`,
estimate the unlock instant as
`createdAt + (targetBlock - createdAtBlock) * avgBlockSeconds * 1000`,
return "Unlocked!" once reached, else the formatted remaining time;
otherwise fall back to the block-count branch.  `none` models a thrown
`TypeError`. -/
def getTimeRemaining (stored : StoredRelease) (unlockAtBlock : JsNum)
    (currentBlock : Option JsNum) (now : Int) : Option String :=
  match stored.createdAt, stored.targetBlock with
  | some createdAt, some tb =>
      if createdAt ≠ 0 then
        let blocksAhead := tb - (stored.createdAtBlock.getD 0)
        let estimatedUnlockTime := createdAt + blocksAhead * avgBlockSeconds * 1000
        if now ≥ estimatedUnlockTime then some "Unlocked!"
        else some (formatHMS ((estimatedUnlockTime - now) / 1000).toNat)
      else blockCountBranch unlockAtBlock currentBlock
  | _, _ => blockCountBranch unlockAtBlock currentBlock

/-! ## Round-trip lemmas for the reveal payload -/

theorem char_toNat_ofNat (n : Nat) (h : n < 55296) : (Char.ofNat n).toNat = n := by
  simp [Char.ofNat, Nat.isValidChar, h, Char.ofNatAux, Char.toNat, UInt32.toNat]

theorem char_eq_of_toNat (c d : Char) (h : c.toNat = d.toNat) : c = d := by
  have hc := Char.ofNat_toNat c
  rw [h, Char.ofNat_toNat] at hc
  exact hc.symm

theorem hexVal_hexDigitChar (n : Nat) (h : n < 16) : hexVal (hexDigitChar n) = some n := by
  have : ∀ m : Fin 16, hexVal (hexDigitChar m.val) = some m.val := by decide
  exact this ⟨n, h⟩

theorem isDigit_range (c : Char) (h : c.isDigit = true) : 48 ≤ c.toNat ∧ c.toNat ≤ 57 := by
  simp [Char.isDigit, decide_eq_true_eq] at h
  exact ⟨h.1, h.2⟩

theorem digitChar_toNat (d : Nat) (h : d < 10) : (digitChar d).toNat = 48 + d :=
  char_toNat_ofNat (48 + d) (by omega)

theorem digitChar_isDigit (d : Nat) (h : d < 10) : (digitChar d).isDigit = true := by
  have : ∀ m : Fin 10, (digitChar m.val).isDigit = true := by decide
  exact this ⟨d, h⟩

/-- A digit character is not JSON whitespace, not a minus sign, and none of
the characters the value dispatch of `parseVal` tests for. -/
theorem digit_not_delim (c : Char) (h : c.isDigit = true) :
    isWs c = false ∧ c ≠ '-' ∧ ∀ d ∈ ['n', 't', 'f', '"', '[', '\x7b'], c ≠ d := by
  have hr := isDigit_range c h
  refine ⟨?_, ?_, ?_⟩
  · simp only [isWs]
    have h1 : c ≠ ' ' := by intro heq; subst heq; revert hr; decide
    have h2 : c ≠ '\t' := by intro heq; subst heq; revert hr; decide
    have h3 : c ≠ '\n' := by intro heq; subst heq; revert hr; decide
    have h4 : c ≠ '\r' := by intro heq; subst heq; revert hr; decide
    simp [h1, h2, h3, h4]
  · intro heq
    subst heq
    revert hr
    decide
  · intro d hd
    fin_cases hd <;> (intro heq; subst heq; revert hr; decide)

theorem skipWs_not_ws (c : Char) (rest : List Char) (h : isWs c = false) :
    skipWs (c :: rest) = c :: rest := by
  simp [skipWs, h]

/-! ### String-literal round trip -/

theorem readStr_quote (rest : List Char) : readStr ('"' :: rest) = some ([], rest) := by
  rw [readStr.eq_def]
  simp

theorem readStr_esc_named (e ec : Char) (rest : List Char) (hne : e ≠ 'u')
    (hec : escCode e = some ec) :
    readStr ('\\' :: e :: rest) = (readStr rest).bind (fun p => some (ec :: p.1, p.2)) := by
  rw [readStr.eq_def]
  simp [hne, hec]

theorem readStr_esc_u (h1 h2 h3 h4 : Char) (v1 v2 v3 v4 : Nat) (rest : List Char)
    (e1 : hexVal h1 = some v1) (e2 : hexVal h2 = some v2)
    (e3 : hexVal h3 = some v3) (e4 : hexVal h4 = some v4) :
    readStr ('\\' :: 'u' :: h1 :: h2 :: h3 :: h4 :: rest)
      = (readStr rest).bind
          (fun p => some (Char.ofNat (((v1 * 16 + v2) * 16 + v3) * 16 + v4) :: p.1, p.2)) := by
  rw [readStr.eq_def]
  simp [e1, e2, e3, e4]

theorem readStr_plain (c : Char) (rest : List Char) (hq : c ≠ '"') (hb : c ≠ '\\')
    (hc : ¬ c.toNat < 32) :
    readStr (c :: rest) = (readStr rest).bind (fun p => some (c :: p.1, p.2)) := by
  rw [readStr.eq_def]
  simp [hq, hb, hc]

/-- Escaping a character list and reading it back as a string body yields
the original characters. -/
theorem readStr_escape (cs : List Char) (rest : List Char) :
    readStr ((cs.map escapeChar).flatten ++ '"' :: rest) = some (cs, rest) := by
  induction cs with
  | nil => simpa using readStr_quote rest
  | cons c cs ih =>
      rw [List.map_cons, List.flatten_cons, List.append_assoc]
      have step : ∀ (e ec : Char), e ≠ 'u' → escCode e = some ec →
          readStr ('\\' :: e :: ((cs.map escapeChar).flatten ++ '"' :: rest))
            = some (ec :: cs, rest) := by
        intro e ec hne hec
        rw [readStr_esc_named e ec _ hne hec, ih]
        simp only [Option.some_bind]
      by_cases h1 : c = '"'
      · subst h1
        rw [show escapeChar '"' = ['\\', '"'] from by decide]
        simp only [List.cons_append, List.nil_append]
        exact step '"' '"' (by decide) (by decide)
      · by_cases h2 : c = '\\'
        · subst h2
          rw [show escapeChar '\\' = ['\\', '\\'] from by decide]
          simp only [List.cons_append, List.nil_append]
          exact step '\\' '\\' (by decide) (by decide)
        · by_cases h3 : c.toNat = 8
          · have hc : c = Char.ofNat 8 := char_eq_of_toNat _ _ (by rw [h3]; decide)
            subst hc
            rw [show escapeChar (Char.ofNat 8) = ['\\', 'b'] from by decide]
            simp only [List.cons_append, List.nil_append]
            exact step 'b' (Char.ofNat 8) (by decide) (by decide)
          · by_cases h4 : c.toNat = 9
            · have hc : c = '\t' := char_eq_of_toNat _ _ (by rw [h4]; decide)
              subst hc
              rw [show escapeChar '\t' = ['\\', 't'] from by decide]
              simp only [List.cons_append, List.nil_append]
              exact step 't' '\t' (by decide) (by decide)
            · by_cases h5 : c.toNat = 10
              · have hc : c = '\n' := char_eq_of_toNat _ _ (by rw [h5]; decide)
                subst hc
                rw [show escapeChar '\n' = ['\\', 'n'] from by decide]
                simp only [List.cons_append, List.nil_append]
                exact step 'n' '\n' (by decide) (by decide)
              · by_cases h6 : c.toNat = 12
                · have hc : c = Char.ofNat 12 := char_eq_of_toNat _ _ (by rw [h6]; decide)
                  subst hc
                  rw [show escapeChar (Char.ofNat 12) = ['\\', 'f'] from by decide]
                  simp only [List.cons_append, List.nil_append]
                  exact step 'f' (Char.ofNat 12) (by decide) (by decide)
                · by_cases h7 : c.toNat = 13
                  · have hc : c = '\r' := char_eq_of_toNat _ _ (by rw [h7]; decide)
                    subst hc
                    rw [show escapeChar '\r' = ['\\', 'r'] from by decide]
                    simp only [List.cons_append, List.nil_append]
                    exact step 'r' '\r' (by decide) (by decide)
                  · by_cases h8 : c.toNat < 32
                    · have hesc : escapeChar c
                          = ['\\', 'u', '0', '0',
                             hexDigitChar (c.toNat / 16), hexDigitChar (c.toNat % 16)] := by
                        simp only [escapeChar]
                        rw [if_neg h1, if_neg h2, if_neg h3, if_neg h4, if_neg h5,
                          if_neg h6, if_neg h7, if_pos h8]
                        rfl
                      rw [hesc]
                      simp only [List.cons_append, List.nil_append]
                      rw [readStr_esc_u '0' '0' _ _ 0 0 (c.toNat / 16) (c.toNat % 16) _
                        (by decide) (by decide)
                        (hexVal_hexDigitChar _ (by omega)) (hexVal_hexDigitChar _ (by omega)),
                        ih]
                      simp only [Option.some_bind]
                      have hv : ((0 * 16 + 0) * 16 + c.toNat / 16) * 16 + c.toNat % 16
                          = c.toNat := by omega
                      rw [hv, Char.ofNat_toNat]
                    · have hesc : escapeChar c = [c] := by
                        simp only [escapeChar]
                        rw [if_neg h1, if_neg h2, if_neg h3, if_neg h4, if_neg h5,
                          if_neg h6, if_neg h7, if_neg h8]
                      rw [hesc]
                      simp only [List.cons_append, List.nil_append]
                      rw [readStr_plain c _ h1 h2 h8, ih]
                      simp only [Option.some_bind]

/-! ### Number round trip -/

theorem ofDigitChars_digits (L : List Nat) (hL : ∀ d ∈ L, d < 10) (a : Nat) :
    ((L.reverse.map digitChar).foldl (fun x c => x * 10 + (c.toNat - 48)) a)
      = a * 10 ^ L.length + Nat.ofDigits 10 L := by
  induction L generalizing a with
  | nil => simp [Nat.ofDigits]
  | cons d L ih =>
      have hd : d < 10 := hL d (List.mem_cons_self _ _)
      rw [List.reverse_cons, List.map_append, List.foldl_append,
        ih (fun x hx => hL x (List.mem_cons_of_mem _ hx))]
      simp only [List.map_cons, List.map_nil, List.foldl_cons, List.foldl_nil,
        digitChar_toNat d hd, Nat.ofDigits_cons, List.length_cons]
      have : 48 + d - 48 = d := by omega
      rw [this, pow_succ]
      ring

theorem ofDigitChars_natChars (n : Nat) : ofDigitChars (natChars n) = n := by
  by_cases h : n = 0
  · subst h
    decide
  · rw [natChars, if_pos (Nat.pos_of_ne_zero h)]
    have hlt : ∀ d ∈ Nat.digits 10 n, d < 10 :=
      fun d hd => Nat.digits_lt_base (by norm_num) hd
    show ((Nat.digits 10 n).reverse.map digitChar).foldl
        (fun x c => x * 10 + (c.toNat - 48)) 0 = n
    rw [ofDigitChars_digits (Nat.digits 10 n) hlt 0]
    simp [Nat.ofDigits_digits]

theorem natChars_ne_nil (n : Nat) : natChars n ≠ [] := by
  rw [natChars]
  split
  · simp only [ne_eq, List.map_eq_nil_iff, List.reverse_eq_nil_iff]
    rename_i h
    exact Nat.digits_ne_nil_iff_ne_zero.mpr (by omega)
  · simp

theorem natChars_all_digit (n : Nat) : ∀ c ∈ natChars n, c.isDigit = true := by
  rw [natChars]
  split
  · intro c hc
    simp only [List.mem_map, List.mem_reverse] at hc
    obtain ⟨d, hd, rfl⟩ := hc
    exact digitChar_isDigit d (Nat.digits_lt_base (by norm_num) hd)
  · intro c hc
    rcases List.mem_singleton.mp hc with rfl
    decide

theorem span_digits (ds rest : List Char) (hds : ∀ c ∈ ds, c.isDigit = true)
    (hrest : ∀ c ∈ rest.head?, c.isDigit = false) :
    (ds ++ rest).span (fun c => c.isDigit) = (ds, rest) := by
  rw [List.span_eq_take_drop]
  induction ds with
  | nil =>
      cases rest with
      | nil => simp
      | cons r t =>
          have hr : r.isDigit = false := hrest r (by simp)
          simp [List.takeWhile_cons, List.dropWhile_cons, hr]
  | cons d ds ih =>
      have hd : d.isDigit = true := hds d (List.mem_cons_self _ _)
      have ih' := ih (fun c hc => hds c (List.mem_cons_of_mem _ hc))
      simp only [List.cons_append, List.takeWhile_cons, List.dropWhile_cons, hd,
        if_true] at ih' ⊢
      simp only [Prod.mk.injEq] at ih'
      simp [ih'.1, ih'.2]

theorem parseNatNum_natChars (n : Nat) (rest : List Char)
    (hrest : ∀ c ∈ rest.head?, c.isDigit = false) :
    parseNatNum (natChars n ++ rest) = some (n, rest) := by
  rw [parseNatNum]
  simp only [span_digits (natChars n) rest (natChars_all_digit n) hrest]
  rw [if_neg (natChars_ne_nil n)]
  rw [ofDigitChars_natChars]

theorem parseNum_natChars (n : Nat) (rest : List Char)
    (hrest : ∀ c ∈ rest.head?, c.isDigit = false) :
    parseNum (natChars n ++ rest) = some ((n : Int), rest) := by
  obtain ⟨c, cs, hc⟩ : ∃ c cs, natChars n = c :: cs := by
    cases h : natChars n with
    | nil => exact absurd h (natChars_ne_nil n)
    | cons c cs => exact ⟨c, cs, rfl⟩
  have hcd : c.isDigit = true := natChars_all_digit n c (by rw [hc]; exact List.mem_cons_self _ _)
  have hminus : c ≠ '-' := (digit_not_delim c hcd).2.1
  rw [hc, List.cons_append, parseNum, if_neg hminus, ← List.cons_append, ← hc,
    parseNatNum_natChars n rest hrest]
  rfl

/-! ### Scalar values round trip through `parseVal` -/

/-- The JSON values the payload builder emits: strings and non-negative
integers. -/
def scalarVal (v : Json) : Prop :=
  (∃ s, v = Json.str s) ∨ (∃ n : Nat, v = Json.num (n : Int))

/-- One-step unfolding of `parseVal` at positive fuel. -/
theorem parseVal_succ (fuel : Nat) (l : List Char) :
    parseVal (fuel + 1) l
      = (match skipWs l with
    | [] => none
    | c :: rest =>
        if c = 'n' then
          if rest.take 3 = ['u', 'l', 'l'] then some (.null, rest.drop 3) else none
        else if c = 't' then
          if rest.take 3 = ['r', 'u', 'e'] then some (.bool true, rest.drop 3) else none
        else if c = 'f' then
          if rest.take 4 = ['a', 'l', 's', 'e'] then some (.bool false, rest.drop 4) else none
        else if c = '"' then
          (readStr rest).map (fun p => (.str (String.mk p.1), p.2))
        else if c = '[' then
          match skipWs rest with
          | [] => none
          | c2 :: rest2 =>
              if c2 = ']' then some (.arr [], rest2)
              else (parseElems fuel (c2 :: rest2)).map (fun p => (.arr p.1, p.2))
        else if c = '{' then
          match skipWs rest with
          | [] => none
          | c2 :: rest2 =>
              if c2 = '}' then some (.obj [], rest2)
              else (parseFields fuel (c2 :: rest2)).map (fun p => (.obj p.1, p.2))
        else
          (parseNum (c :: rest)).map (fun p => (.num p.1, p.2))) := rfl

/-- One-step unfolding of `parseFields` at positive fuel. -/
theorem parseFields_succ (fuel : Nat) (l : List Char) :
    parseFields (fuel + 1) l
      = (match skipWs l with
    | [] => none
    | c :: rest =>
        if c = '"' then do
          let k ← readStr rest
          match skipWs k.2 with
          | [] => none
          | c2 :: rest2 =>
              if c2 = ':' then do
                let v ← parseVal fuel rest2
                match skipWs v.2 with
                | [] => none
                | c3 :: rest3 =>
                    if c3 = ',' then do
                      let fs ← parseFields fuel rest3
                      some ((String.mk k.1, v.1) :: fs.1, fs.2)
                    else if c3 = '}' then some ([(String.mk k.1, v.1)], rest3)
                    else none
              else none
        else none) := rfl

theorem parseVal_str (fuel : Nat) (s : String) (rest : List Char) :
    parseVal (fuel + 1) ('"' :: (escapeString s ++ '"' :: rest)) = some (Json.str s, rest) := by
  rw [parseVal_succ, skipWs_not_ws '"' _ (by decide)]
  simp only [reduceIte, reduceCtorEq]
  rw [show escapeString s ++ '"' :: rest = (s.data.map escapeChar).flatten ++ '"' :: rest
      from rfl,
    readStr_escape]
  rfl

theorem parseVal_nat (fuel n : Nat) (rest : List Char)
    (hrest : ∀ c ∈ rest.head?, c.isDigit = false) :
    parseVal (fuel + 1) (natChars n ++ rest) = some (Json.num (n : Int), rest) := by
  obtain ⟨c, cs, hc⟩ : ∃ c cs, natChars n = c :: cs := by
    cases h : natChars n with
    | nil => exact absurd h (natChars_ne_nil n)
    | cons c cs => exact ⟨c, cs, rfl⟩
  have hcd : c.isDigit = true := natChars_all_digit n c (by rw [hc]; exact List.mem_cons_self _ _)
  have hd := digit_not_delim c hcd
  rw [hc, List.cons_append, parseVal_succ, skipWs_not_ws c _ hd.1]
  simp only [if_neg (hd.2.2 'n' (by decide)), if_neg (hd.2.2 't' (by decide)),
    if_neg (hd.2.2 'f' (by decide)), if_neg (hd.2.2 '"' (by decide)),
    if_neg (hd.2.2 '[' (by decide)), if_neg (hd.2.2 '\x7b' (by decide))]
  rw [← List.cons_append, ← hc, parseNum_natChars n rest hrest]
  rfl

theorem parseVal_scalar (fuel : Nat) (v : Json) (hv : scalarVal v) (rest : List Char)
    (hrest : ∀ c ∈ rest.head?, c.isDigit = false) :
    parseVal (fuel + 1) (serializeJson v ++ rest) = some (v, rest) := by
  rcases hv with ⟨s, rfl⟩ | ⟨n, rfl⟩
  · rw [show serializeJson (Json.str s) ++ rest = '"' :: (escapeString s ++ '"' :: rest) by
      simp [serializeJson]]
    exact parseVal_str fuel s rest
  · rw [show serializeJson (Json.num (n : Int)) = natChars n by
      simp [serializeJson, intChars, Int.not_lt.mpr (Int.natCast_nonneg n), Int.toNat_natCast]]
    exact parseVal_nat fuel n rest hrest

/-! ### Serialized objects round trip -/

theorem parseFields_serialized (fields : List (String × Json)) (rest : List Char) :
    ∀ fuel, fields.length < fuel → fields ≠ [] → (∀ f ∈ fields, scalarVal f.2) →
      parseFields fuel (serializeFields fields ++ '}' :: rest) = some (fields, rest) := by
  induction fields with
  | nil => intro fuel _ hne _; exact absurd rfl hne
  | cons f fs ih =>
      intro fuel hlen hne hsc
      obtain ⟨m2, rfl⟩ : ∃ m2, fuel = m2 + 1 + 1 := ⟨fuel - 2, by simp at hlen; omega⟩
      cases fs with
      | nil =>
          rw [show serializeFields [f]
              = '"' :: (escapeString f.1 ++ '"' :: ':' :: serializeJson f.2) from rfl]
          rw [List.cons_append, parseFields_succ, skipWs_not_ws '"' _ (by decide)]
          simp only [reduceIte]
          rw [show (escapeString f.1 ++ '"' :: ':' :: serializeJson f.2) ++ '}' :: rest
              = (f.1.data.map escapeChar).flatten
                  ++ '"' :: (':' :: (serializeJson f.2 ++ '}' :: rest)) by
            simp [escapeString]]
          rw [readStr_escape]
          simp only [Option.bind_eq_bind, Option.some_bind]
          rw [skipWs_not_ws ':' _ (by decide)]
          simp only [reduceIte]
          rw [parseVal_scalar m2 f.2 (hsc f (List.mem_cons_self _ _)) ('}' :: rest)
            (by intro c hc; simp at hc; subst hc; decide)]
          simp only [Option.bind_eq_bind, Option.some_bind]
          rw [skipWs_not_ws '}' _ (by decide)]
          simp only [reduceIte, reduceCtorEq]
          rfl
      | cons f2 fs2 =>
          rw [show serializeFields (f :: f2 :: fs2)
              = ('"' :: (escapeString f.1 ++ '"' :: ':' :: serializeJson f.2))
                  ++ ',' :: serializeFields (f2 :: fs2) from rfl]
          rw [show (('"' :: (escapeString f.1 ++ '"' :: ':' :: serializeJson f.2))
                  ++ ',' :: serializeFields (f2 :: fs2)) ++ '}' :: rest
              = '"' :: ((f.1.data.map escapeChar).flatten
                  ++ '"' :: (':' :: (serializeJson f.2
                      ++ ',' :: (serializeFields (f2 :: fs2) ++ '}' :: rest)))) by
            simp [escapeString]]
          rw [parseFields_succ, skipWs_not_ws '"' _ (by decide)]
          simp only [reduceIte]
          rw [readStr_escape]
          simp only [Option.bind_eq_bind, Option.some_bind]
          rw [skipWs_not_ws ':' _ (by decide)]
          simp only [reduceIte]
          rw [parseVal_scalar m2 f.2 (hsc f (List.mem_cons_self _ _))
            (',' :: (serializeFields (f2 :: fs2) ++ '}' :: rest))
            (by intro c hc; simp at hc; subst hc; decide)]
          simp only [Option.bind_eq_bind, Option.some_bind]
          rw [skipWs_not_ws ',' _ (by decide)]
          simp only [reduceIte]
          rw [ih (m2 + 1) (by simp at hlen ⊢; omega) (by simp)
            (fun g hg => hsc g (List.mem_cons_of_mem _ hg))]
          rfl

/-- Parsing the serialization of a non-empty object with scalar fields.  -/
theorem parseVal_serialized_obj (fields : List (String × Json)) (rest : List Char)
    (fuel : Nat) (hlen : fields.length < fuel) (hne : fields ≠ [])
    (hsc : ∀ f ∈ fields, scalarVal f.2) :
    parseVal (fuel + 1) (serializeJson (Json.obj fields) ++ rest)
      = some (Json.obj fields, rest) := by
  obtain ⟨f, fs, rfl⟩ : ∃ f fs, fields = f :: fs := by
    cases fields with
    | nil => exact absurd rfl hne
    | cons f fs => exact ⟨f, fs, rfl⟩
  obtain ⟨t, ht⟩ : ∃ t, serializeFields (f :: fs) = '"' :: t := by
    cases fs with
    | nil => exact ⟨_, rfl⟩
    | cons f2 fs2 => exact ⟨_, rfl⟩
  rw [show serializeJson (Json.obj (f :: fs)) ++ rest
      = '{' :: (serializeFields (f :: fs) ++ '}' :: rest) by simp [serializeJson]]
  rw [parseVal_succ, skipWs_not_ws '{' _ (by decide)]
  simp only [reduceIte, reduceCtorEq]
  rw [ht, List.cons_append, skipWs_not_ws '"' _ (by decide)]
  simp only [reduceIte, reduceCtorEq]
  rw [← List.cons_append, ← ht, parseFields_serialized (f :: fs) rest fuel hlen hne hsc]
  rfl

theorem serializeFields_length_ge (fields : List (String × Json)) :
    fields.length ≤ (serializeFields fields).length := by
  induction fields with
  | nil => simp [serializeFields]
  | cons f fs ih =>
      cases fs with
      | nil => simp [serializeFields]
      | cons f2 fs2 =>
          rw [show serializeFields (f :: f2 :: fs2)
              = ('"' :: (escapeString f.1 ++ '"' :: ':' :: serializeJson f.2))
                  ++ ',' :: serializeFields (f2 :: fs2) from rfl]
          simp only [List.length_append, List.length_cons]
          simp at ih ⊢
          omega

/-- `JSON.parse ∘ JSON.stringify` is the identity on non-empty objects with
scalar fields — the shape of every reveal payload. -/
theorem parseJson_serialized_obj (fields : List (String × Json)) (hne : fields ≠ [])
    (hsc : ∀ f ∈ fields, scalarVal f.2) :
    parseJson (String.mk (serializeJson (Json.obj fields))) = some (Json.obj fields) := by
  have hfl : fields.length < (serializeJson (Json.obj fields)).length := by
    have h1 := serializeFields_length_ge fields
    rw [show serializeJson (Json.obj fields)
        = '{' :: (serializeFields fields ++ ['}']) from rfl]
    simp only [List.length_cons, List.length_append, List.length_singleton]
    omega
  have h := parseVal_serialized_obj fields [] (serializeJson (Json.obj fields)).length
    hfl hne hsc
  rw [List.append_nil] at h
  rw [parseJson,
    show (String.mk (serializeJson (Json.obj fields))).length
      = (serializeJson (Json.obj fields)).length from rfl,
    show (String.mk (serializeJson (Json.obj fields))).data
      = serializeJson (Json.obj fields) from rfl,
    h]
  rfl

/-! ## Store lemmas -/

theorem mem_insertDesc (x y : MediaReleaseInfo) (l : List MediaReleaseInfo) :
    y ∈ insertDesc x l ↔ y = x ∨ y ∈ l := by
  induction l with
  | nil => simp [insertDesc]
  | cons z zs ih =>
      simp only [insertDesc]
      split
      · simp
      · simp [ih]
        tauto

theorem mem_sortByIdDesc (l : List MediaReleaseInfo) (x : MediaReleaseInfo) :
    x ∈ sortByIdDesc l ↔ x ∈ l := by
  induction l with
  | nil => simp [sortByIdDesc]
  | cons a l ih =>
      show x ∈ insertDesc a (sortByIdDesc l) ↔ _
      rw [mem_insertDesc, ih]
      simp

theorem mem_mapSet_weak (m : List (Nat × MediaReleaseInfo)) (k : Nat) (v : MediaReleaseInfo)
    (e : Nat × MediaReleaseInfo) (he : e ∈ mapSet m k v) : e ∈ m ∨ e = (k, v) := by
  induction m with
  | nil => simpa [mapSet] using he
  | cons p rest ih =>
      simp only [mapSet] at he
      split at he
      · rcases List.mem_cons.mp he with h | h
        · exact Or.inr h
        · exact Or.inl (List.mem_cons_of_mem _ h)
      · rcases List.mem_cons.mp he with h | h
        · exact Or.inl (h ▸ List.mem_cons_self _ _)
        · rcases ih h with h' | h'
          · exact Or.inl (List.mem_cons_of_mem _ h')
          · exact Or.inr h'

theorem mapSet_self_mem (m : List (Nat × MediaReleaseInfo)) (k : Nat) (v : MediaReleaseInfo) :
    (k, v) ∈ mapSet m k v := by
  induction m with
  | nil => simp [mapSet]
  | cons p rest ih =>
      simp only [mapSet]
      split
      · exact List.mem_cons_self _ _
      · exact List.mem_cons_of_mem _ ih

theorem mapSet_keys_sub (m : List (Nat × MediaReleaseInfo)) (k : Nat) (v : MediaReleaseInfo)
    (a : Nat) (ha : a ∈ (mapSet m k v).map Prod.fst) : a = k ∨ a ∈ m.map Prod.fst := by
  simp only [List.mem_map] at ha ⊢
  obtain ⟨e, he, rfl⟩ := ha
  rcases mem_mapSet_weak m k v e he with h | h
  · exact Or.inr ⟨e, h, rfl⟩
  · subst h
    exact Or.inl rfl

theorem mapSet_keys_nodup (m : List (Nat × MediaReleaseInfo)) (k : Nat) (v : MediaReleaseInfo)
    (h : (m.map Prod.fst).Nodup) : ((mapSet m k v).map Prod.fst).Nodup := by
  induction m with
  | nil => simp [mapSet]
  | cons p rest ih =>
      simp only [List.map_cons, List.nodup_cons] at h
      simp only [mapSet]
      split
      · simp only [List.map_cons, List.nodup_cons]
        rename_i hk
        exact ⟨hk ▸ h.1, h.2⟩
      · simp only [List.map_cons, List.nodup_cons]
        refine ⟨?_, ih h.2⟩
        intro hmem
        rcases mapSet_keys_sub rest k v p.1 hmem with h' | h'
        · rename_i hk
          exact hk h'
        · exact h.1 h'

theorem mem_mapSet_key_eq (m : List (Nat × MediaReleaseInfo)) (k : Nat) (v : MediaReleaseInfo)
    (e : Nat × MediaReleaseInfo) (hnd : (m.map Prod.fst).Nodup)
    (he : e ∈ mapSet m k v) (hk : e.1 = k) : e = (k, v) := by
  induction m with
  | nil =>
      simpa [mapSet] using he
  | cons p rest ih =>
      simp only [List.map_cons, List.nodup_cons] at hnd
      simp only [mapSet] at he
      split at he
      · rename_i hpk
        rcases List.mem_cons.mp he with h | h
        · exact h
        · exfalso
          apply hnd.1
          rw [hpk]
          have hmem : e.1 ∈ List.map Prod.fst rest := List.mem_map_of_mem Prod.fst h
          rw [← hk]
          exact hmem
      · rename_i hpk
        rcases List.mem_cons.mp he with h | h
        · exfalso
          apply hpk
          subst h
          simpa using hk
        · exact ih hnd.2 h

theorem foldl_mapSet_inv (prev : List MediaReleaseInfo) (m : List (Nat × MediaReleaseInfo))
    (h1 : ∀ e ∈ m, e.2.requestId = e.1) (h2 : (m.map Prod.fst).Nodup) :
    (∀ e ∈ prev.foldl (fun acc r => mapSet acc r.requestId r) m, e.2.requestId = e.1) ∧
    ((prev.foldl (fun acc r => mapSet acc r.requestId r) m).map Prod.fst).Nodup := by
  induction prev generalizing m with
  | nil => exact ⟨h1, h2⟩
  | cons r rest ih =>
      simp only [List.foldl_cons]
      refine ih (mapSet m r.requestId r) ?_ (mapSet_keys_nodup m r.requestId r h2)
      intro e he
      rcases mem_mapSet_weak m r.requestId r e he with h | h
      · exact h1 e h
      · subst h
        rfl

theorem find?_eq_of_unique {α : Type} (p : α → Bool) (xs : List α) (x : α)
    (hmem : x ∈ xs) (hpx : p x = true) (hu : ∀ y ∈ xs, p y = true → y = x) :
    xs.find? p = some x := by
  induction xs with
  | nil => cases hmem
  | cons a l ih =>
      by_cases hpa : p a = true
      · have hax : a = x := hu a (List.mem_cons_self _ _) hpa
        rw [List.find?_cons_of_pos _ hpa, hax]
      · rw [List.find?_cons_of_neg _ (by simpa using hpa)]
        have hmem' : x ∈ l := by
          rcases List.mem_cons.mp hmem with h | h
          · exact absurd (h ▸ hpx) hpa
          · exact h
        exact ih hmem' (fun y hy hpy => hu y (List.mem_cons_of_mem _ hy) hpy)

/-! ## Claim C1: store merge monotonicity -/

/-- A record for request 1 whose reveal has already been observed and
merged (isRevealed, payload present). -/
def c1Revealed : MediaReleaseInfo :=
  { requestId := 1
    creator := "0xabc"
    fileCidHash := "0xhash"
    unlockAtBlock := 50
    isRevealed := true
    revealed := some "0xdeadbeef"
    currentBlock := some 60
    isUnlocked := some true }

/-- The view of the same request that `fetchReleases` produces when the
`Created` log is more than 10 blocks old: the reveal check is skipped, so
`isRevealed = false` and `revealed = undefined`. -/
def c1Stale : MediaReleaseInfo :=
  { requestId := 1
    creator := "0xabc"
    fileCidHash := "0xhash"
    unlockAtBlock := 50
    isRevealed := false
    revealed := none
    currentBlock := some 70
    isUnlocked := some true }

/-- C1 counterexample: upserting the stale confirmed view over the revealed
record clears the previously non-null `revealed` field and regresses
`isRevealed` from true to false — the spread `{ ...(old || {}), ...item }`
copies every own property of `item`, including `undefined` ones, so the
merge is not monotonic and the final record depends on arrival order. -/
theorem fetchMerge_clears_fields_and_regresses_reveal :
    c1Revealed.isRevealed = true ∧ c1Revealed.revealed = some "0xdeadbeef" ∧
    fetchMerge [c1Revealed] [c1Stale] = [c1Stale] ∧
    c1Stale.isRevealed = false ∧ c1Stale.revealed = none := by
  decide

/-- C1 amended: the store merges are last-write-wins, not field-preserving:
after a `fetchReleases` upsert the stored record with the incoming
`requestId` is exactly the incoming view (every field overwritten, so
non-null fields can be cleared and `isRevealed` can regress, and the final
record is the view that arrived last); a `checkReleaseStatus` update leaves
every record either untouched (different id) or replaced by the incoming
view; only the localStorage loader is non-destructive, keeping every
existing record. -/
theorem releases_merge_last_write_wins (prev : List MediaReleaseInfo)
    (item : MediaReleaseInfo) (prev2 : List MediaReleaseInfo) (rid : Nat)
    (release : MediaReleaseInfo) (locals : List MediaReleaseInfo) :
    (fetchMerge prev [item]).find? (fun r => r.requestId == item.requestId) = some item ∧
    (∀ r ∈ checkMerge prev2 rid release, r ∈ prev2 ∨ r = release) ∧
    (∀ r ∈ prev2, r ∈ localLoadMerge prev2 locals) := by
  refine ⟨?_, ?_, ?_⟩
  · have hM := foldl_mapSet_inv prev [] (by simp) (by simp)
    set M := prev.foldl (fun acc r => mapSet acc r.requestId r) [] with hMdef
    have hmerge : fetchMerge prev [item]
        = sortByIdDesc ((mapSet M item.requestId item).map (fun e => e.2)) := by
      simp [fetchMerge, mapFromList, ← hMdef, spreadInfo]
    rw [hmerge]
    apply find?_eq_of_unique
    · rw [mem_sortByIdDesc]
      exact List.mem_map_of_mem _ (mapSet_self_mem M item.requestId item)
    · simp
    · intro y hy hpy
      rw [mem_sortByIdDesc] at hy
      simp only [List.mem_map] at hy
      obtain ⟨e, he, rfl⟩ := hy
      have hkey : e.1 = item.requestId := by
        rcases mem_mapSet_weak M item.requestId item e he with h | h
        · rw [← hM.1 e h]
          simpa using hpy
        · rw [h]
      have := mem_mapSet_key_eq M item.requestId item e hM.2 he hkey
      rw [this]
  · intro r hr
    simp only [checkMerge, List.mem_map] at hr
    obtain ⟨a, ha, rfl⟩ := hr
    by_cases h : a.requestId = rid
    · right
      simp [h, spreadInfo]
    · left
      simpa [h] using ha
  · intro r hr
    rw [localLoadMerge, mem_sortByIdDesc]
    exact List.mem_append_right _ hr

/-- Witness for the amended C1: concrete last-write-wins merge, concrete
`checkReleaseStatus` replacement, concrete loader preservation. -/
theorem releases_merge_last_write_wins_witness :
    (fetchMerge [c1Revealed] [c1Stale]).find? (fun r => r.requestId == c1Stale.requestId)
        = some c1Stale ∧
    (c1Stale ∈ [c1Revealed] ∨ c1Stale = c1Stale) ∧
    c1Revealed ∈ localLoadMerge [c1Revealed] [] := by
  obtain ⟨h1, h2, h3⟩ :=
    releases_merge_last_write_wins [c1Revealed] c1Stale [c1Revealed] 1 c1Stale []
  exact ⟨h1, h2 c1Stale (by decide), h3 c1Revealed (List.mem_singleton.mpr rfl)⟩

/-! ## Scanner lemmas -/

theorem getLogsChunkedAux_trace {α : Type} (oracle : Int → Int → Except Unit (List α))
    (toBlock chunkSize : Int) :
    ∀ fuel start, (getLogsChunkedAux oracle toBlock chunkSize fuel start).2
      = chunkRangesAux toBlock chunkSize fuel start := by
  intro fuel
  induction fuel with
  | zero => intro start; rfl
  | succ n ih =>
      intro start
      simp only [getLogsChunkedAux, chunkRangesAux]
      split
      · rfl
      · simp [ih]

theorem getLogsChunkedAux_logs {α : Type} (oracle : Int → Int → Except Unit (List α))
    (toBlock chunkSize : Int) :
    ∀ fuel start, (getLogsChunkedAux oracle toBlock chunkSize fuel start).1
      = (chunkRangesAux toBlock chunkSize fuel start).flatMap
          (fun p => match oracle p.1 p.2 with | .ok ls => ls | .error _ => []) := by
  intro fuel
  induction fuel with
  | zero => intro start; rfl
  | succ n ih =>
      intro start
      simp only [getLogsChunkedAux, chunkRangesAux]
      split
      · rfl
      · simp [ih]

theorem chunkRangesAux_nil (toBlock chunkSize : Int) (fuel : Nat) (start : Int)
    (h : start > toBlock) : chunkRangesAux toBlock chunkSize fuel start = [] := by
  cases fuel with
  | zero => rfl
  | succ n => simp [chunkRangesAux, h]

theorem chunkRangesAux_congr (toBlock chunkSize : Int) (hc : 1 ≤ chunkSize) :
    ∀ f₁ f₂ start, (toBlock - start).toNat < f₁ → (toBlock - start).toNat < f₂ →
      chunkRangesAux toBlock chunkSize f₁ start = chunkRangesAux toBlock chunkSize f₂ start := by
  intro f₁
  induction f₁ with
  | zero => intro f₂ start h1 h2; exact absurd h1 (Nat.not_lt_zero _)
  | succ n ih =>
      intro f₂ start h1 h2
      cases f₂ with
      | zero => exact absurd h2 (Nat.not_lt_zero _)
      | succ m =>
          simp only [chunkRangesAux]
          split
          · rfl
          · rename_i hle
            by_cases hsc : start + chunkSize > toBlock
            · rw [chunkRangesAux_nil _ _ _ _ hsc, chunkRangesAux_nil _ _ _ _ hsc]
            · have hb1 : (toBlock - (start + chunkSize)).toNat < n := by omega
              have hb2 : (toBlock - (start + chunkSize)).toNat < m := by omega
              rw [ih m (start + chunkSize) hb1 hb2]

theorem chunkRanges_nil (fromBlock toBlock chunkSize : Int) (h : fromBlock > toBlock) :
    chunkRanges fromBlock toBlock chunkSize = [] :=
  chunkRangesAux_nil _ _ _ _ h

theorem chunkRanges_cons (fromBlock toBlock chunkSize : Int) (hft : fromBlock ≤ toBlock)
    (hc : 1 ≤ chunkSize) :
    chunkRanges fromBlock toBlock chunkSize
      = (fromBlock, min (fromBlock + chunkSize - 1) toBlock)
        :: chunkRanges (fromBlock + chunkSize) toBlock chunkSize := by
  show chunkRangesAux toBlock chunkSize ((toBlock - fromBlock).toNat + 1) fromBlock = _
  simp only [chunkRangesAux, if_neg (by omega : ¬ fromBlock > toBlock)]
  by_cases hsc : fromBlock + chunkSize > toBlock
  · rw [chunkRangesAux_nil _ _ _ _ hsc, chunkRanges_nil _ _ _ hsc]
  · rw [chunkRangesAux_congr toBlock chunkSize hc ((toBlock - fromBlock).toNat)
      ((toBlock - (fromBlock + chunkSize)).toNat + 1) (fromBlock + chunkSize)
      (by omega) (by omega)]
    rfl

theorem chunkRanges_bounds (toBlock chunkSize : Int) (hc : 1 ≤ chunkSize) :
    ∀ n fromBlock, (toBlock - fromBlock).toNat ≤ n →
      ∀ p ∈ chunkRanges fromBlock toBlock chunkSize,
        fromBlock ≤ p.1 ∧ p.1 ≤ p.2 ∧ p.2 ≤ toBlock ∧ p.2 - p.1 + 1 ≤ chunkSize := by
  intro n
  induction n with
  | zero =>
      intro fromBlock hn p hp
      by_cases hft : fromBlock ≤ toBlock
      · have hf : fromBlock = toBlock := by omega
        rw [chunkRanges_cons fromBlock toBlock chunkSize hft hc] at hp
        rcases List.mem_cons.mp hp with h | h
        · subst h
          constructor
          · exact le_refl _
          · omega
        · rw [chunkRanges_nil _ _ _ (by omega)] at h
          cases h
      · rw [chunkRanges_nil _ _ _ (by omega)] at hp
        cases hp
  | succ m ih =>
      intro fromBlock hn p hp
      by_cases hft : fromBlock ≤ toBlock
      · rw [chunkRanges_cons fromBlock toBlock chunkSize hft hc] at hp
        rcases List.mem_cons.mp hp with h | h
        · subst h
          constructor
          · exact le_refl _
          · omega
        · by_cases hsc : fromBlock + chunkSize > toBlock
          · rw [chunkRanges_nil _ _ _ hsc] at h
            cases h
          · have := ih (fromBlock + chunkSize) (by omega) p h
            exact ⟨by omega, this.2⟩
      · rw [chunkRanges_nil _ _ _ (by omega)] at hp
        cases hp

theorem chunkRanges_nodup (toBlock chunkSize : Int) (hc : 1 ≤ chunkSize) :
    ∀ n fromBlock, (toBlock - fromBlock).toNat ≤ n →
      (chunkRanges fromBlock toBlock chunkSize).Nodup := by
  intro n
  induction n with
  | zero =>
      intro fromBlock hn
      by_cases hft : fromBlock ≤ toBlock
      · rw [chunkRanges_cons fromBlock toBlock chunkSize hft hc,
          chunkRanges_nil _ _ _ (by omega)]
        simp
      · rw [chunkRanges_nil _ _ _ (by omega)]
        simp
  | succ m ih =>
      intro fromBlock hn
      by_cases hft : fromBlock ≤ toBlock
      · rw [chunkRanges_cons fromBlock toBlock chunkSize hft hc]
        refine List.nodup_cons.mpr ⟨?_, ?_⟩
        · intro hmem
          have := chunkRanges_bounds toBlock chunkSize hc
            ((toBlock - (fromBlock + chunkSize)).toNat) (fromBlock + chunkSize)
            (le_refl _) _ hmem
          omega
        · by_cases hsc : fromBlock + chunkSize > toBlock
          · rw [chunkRanges_nil _ _ _ hsc]
            simp
          · exact ih (fromBlock + chunkSize) (by omega)
      · rw [chunkRanges_nil _ _ _ (by omega)]
        simp

theorem chunkRanges_chain (toBlock chunkSize : Int) (hc : 1 ≤ chunkSize) :
    ∀ n fromBlock, (toBlock - fromBlock).toNat ≤ n →
      List.Chain' (fun a b => b.1 = a.2 + 1) (chunkRanges fromBlock toBlock chunkSize) := by
  intro n
  induction n with
  | zero =>
      intro fromBlock hn
      by_cases hft : fromBlock ≤ toBlock
      · rw [chunkRanges_cons fromBlock toBlock chunkSize hft hc,
          chunkRanges_nil _ _ _ (by omega)]
        simp
      · rw [chunkRanges_nil _ _ _ (by omega)]
        simp
  | succ m ih =>
      intro fromBlock hn
      by_cases hft : fromBlock ≤ toBlock
      · rw [chunkRanges_cons fromBlock toBlock chunkSize hft hc]
        rw [List.chain'_cons']
        constructor
        · intro y hy
          by_cases hsc : fromBlock + chunkSize > toBlock
          · rw [chunkRanges_nil _ _ _ hsc] at hy
            cases hy
          · rw [chunkRanges_cons (fromBlock + chunkSize) toBlock chunkSize (by omega) hc] at hy
            simp only [List.head?_cons, Option.mem_def, Option.some.injEq] at hy
            subst hy
            simp only
            omega
        · by_cases hsc : fromBlock + chunkSize > toBlock
          · rw [chunkRanges_nil _ _ _ hsc]
            simp
          · exact ih (fromBlock + chunkSize) (by omega)
      · rw [chunkRanges_nil _ _ _ (by omega)]
        simp

theorem chunkRanges_last (toBlock chunkSize : Int) (hc : 1 ≤ chunkSize) :
    ∀ n fromBlock, (toBlock - fromBlock).toNat ≤ n → fromBlock ≤ toBlock →
      ((chunkRanges fromBlock toBlock chunkSize).map Prod.snd).getLast? = some toBlock := by
  intro n
  induction n with
  | zero =>
      intro fromBlock hn hft
      rw [chunkRanges_cons fromBlock toBlock chunkSize hft hc,
        chunkRanges_nil _ _ _ (by omega)]
      simp
      omega
  | succ m ih =>
      intro fromBlock hn hft
      rw [chunkRanges_cons fromBlock toBlock chunkSize hft hc]
      by_cases hsc : fromBlock + chunkSize > toBlock
      · rw [chunkRanges_nil _ _ _ hsc]
        simp
        omega
      · have htail := ih (fromBlock + chunkSize) (by omega) (by omega)
        rw [chunkRanges_cons (fromBlock + chunkSize) toBlock chunkSize (by omega) hc] at htail ⊢
        simp only [List.map_cons] at htail ⊢
        rw [List.getLast?_cons_cons]
        exact htail

/-! ## Claim C6: chunk boundaries exactly cover the window -/

/-- C6: for every window `[from, to]` with `from ≤ to` and chunk size
`c ≥ 1`, the logs are fetched in sequential chunks of at most `c` blocks
each: the trace of `getLogs` calls is `chunkRanges from to c`, whose ranges
are non-empty, at most `c` blocks wide, start at `from`, end at `to`, and
are pairwise adjacent (`next.start = prev.end + 1` — no overlap, no gap);
in particular the 37-block window `[0, 36]` with `CHUNK_SIZE = 10` issues
exactly the 4 calls `[0,9], [10,19], [20,29], [30,36]`. -/
theorem scan_chunks_cover_window {α : Type} (oracle : Int → Int → Except Unit (List α))
    (fromBlock toBlock chunkSize : Int) (hft : fromBlock ≤ toBlock) (hc : 1 ≤ chunkSize) :
    (getLogsChunked oracle fromBlock toBlock chunkSize).2
        = chunkRanges fromBlock toBlock chunkSize ∧
    (∀ p ∈ chunkRanges fromBlock toBlock chunkSize,
        p.1 ≤ p.2 ∧ p.2 - p.1 + 1 ≤ chunkSize) ∧
    ((chunkRanges fromBlock toBlock chunkSize).map Prod.fst).head? = some fromBlock ∧
    ((chunkRanges fromBlock toBlock chunkSize).map Prod.snd).getLast? = some toBlock ∧
    List.Chain' (fun a b => b.1 = a.2 + 1) (chunkRanges fromBlock toBlock chunkSize) ∧
    chunkRanges 0 36 10 = [(0, 9), (10, 19), (20, 29), (30, 36)] := by
  refine ⟨getLogsChunkedAux_trace oracle toBlock chunkSize _ _, ?_, ?_, ?_, ?_, by decide⟩
  · intro p hp
    have h := chunkRanges_bounds toBlock chunkSize hc _ fromBlock (le_refl _) p hp
    exact ⟨h.2.1, h.2.2.2⟩
  · rw [chunkRanges_cons fromBlock toBlock chunkSize hft hc]
    simp
  · exact chunkRanges_last toBlock chunkSize hc _ fromBlock (le_refl _) hft
  · exact chunkRanges_chain toBlock chunkSize hc _ fromBlock (le_refl _)

/-- Witness for C6 at the spec's concrete instance (window `[0, 36]`,
`CHUNK_SIZE = 10`). -/
theorem scan_chunks_cover_window_witness :
    (getLogsChunked (fun _ _ => Except.ok ([] : List Unit)) 0 36 10).2
        = chunkRanges 0 36 10 ∧
    ((chunkRanges 0 36 10).map Prod.fst).head? = some 0 ∧
    ((chunkRanges 0 36 10).map Prod.snd).getLast? = some 36 := by
  obtain ⟨h1, _, h3, h4, _, _⟩ :=
    scan_chunks_cover_window (fun _ _ => Except.ok ([] : List Unit)) 0 36 10
      (by decide) (by decide)
  exact ⟨h1, h3, h4⟩

/-! ## Claim C4: per-chunk retry behaviour -/

/-- A provider for which the first chunk `[0, 9]` always fails and every
other chunk returns one log. -/
def c4Oracle : Int → Int → Except Unit (List Nat) :=
  fun s _ => if s = 0 then .error () else .ok [7]

/-- C4 counterexample: a failing chunk is *not* retried — over the window
`[0, 19]` with chunk size 10, the failing chunk `(0, 9)` appears exactly
once in the `getLogs` call trace (a retry would require at least two
attempts), while the scan continues and returns the second chunk's log. -/
theorem chunk_fetch_not_retried :
    getLogsChunked c4Oracle 0 19 10 = ([7], [(0, 9), (10, 19)]) ∧
    ((getLogsChunked c4Oracle 0 19 10).2).count (0, 9) = 1 ∧
    c4Oracle 0 9 = .error () :=
  ⟨by decide, by decide, rfl⟩

/-- C4 amended: each per-chunk log fetch is attempted exactly once, with no
retry (the trace lists every chunk of the window exactly once regardless of
failures); a chunk whose single fetch fails is skipped with a warning while
the scan continues, returning the concatenated logs of the successful
chunks.  (The separate `withRetry` helper — 2 attempts, 500 ms delay —
guards the `getBlockNumber` and `metaOf` reads in `fetchReleases`, not
chunk fetches.) -/
theorem chunk_fetch_single_attempt_skips_and_continues {α : Type}
    (oracle : Int → Int → Except Unit (List α)) (fromBlock toBlock chunkSize : Int)
    (hc : 1 ≤ chunkSize) :
    (getLogsChunked oracle fromBlock toBlock chunkSize).2
        = chunkRanges fromBlock toBlock chunkSize ∧
    ((getLogsChunked oracle fromBlock toBlock chunkSize).2).Nodup ∧
    (getLogsChunked oracle fromBlock toBlock chunkSize).1
        = (chunkRanges fromBlock toBlock chunkSize).flatMap
            (fun p => match oracle p.1 p.2 with | .ok ls => ls | .error _ => []) := by
  refine ⟨getLogsChunkedAux_trace oracle toBlock chunkSize _ _, ?_,
    getLogsChunkedAux_logs oracle toBlock chunkSize _ _⟩
  show (getLogsChunkedAux oracle toBlock chunkSize _ _).2.Nodup
  rw [getLogsChunkedAux_trace oracle toBlock chunkSize _ _]
  exact chunkRanges_nodup toBlock chunkSize hc _ fromBlock (le_refl _)

/-- Witness for the amended C4 at the counterexample's oracle and window. -/
theorem chunk_fetch_single_attempt_witness :
    (getLogsChunked c4Oracle 0 19 10).2 = chunkRanges 0 19 10 ∧
    ((getLogsChunked c4Oracle 0 19 10).2).Nodup := by
  obtain ⟨h1, h2, _⟩ := chunk_fetch_single_attempt_skips_and_continues c4Oracle 0 19 10 (by decide)
  exact ⟨h1, h2⟩

/-! ## Claim C8: ciphertext frame error cases -/

/-- C8: for every ciphertext frame shorter than `1 + 12 + 16` bytes
(version + nonce + tag), decoding fails with `CiphertextMalformed`; for
every frame of sufficient length whose first byte is not `1`, decoding
fails with `UnsupportedVersion`. -/
theorem frame_decode_error_cases (bytes : List Nat) :
    (bytes.length < 1 + 12 + 16 → decodeFrame bytes = .error .ciphertextMalformed) ∧
    (1 + 12 + 16 ≤ bytes.length → ∀ v rest, bytes = v :: rest → v ≠ 1 →
      decodeFrame bytes = .error .unsupportedVersion) := by
  constructor
  · intro h
    simp [decodeFrame, h]
  · intro h v rest hb hv
    subst hb
    simp only [decodeFrame, if_neg (by omega : ¬ (v :: rest).length < 1 + 12 + 16)]
    simp [hv]

/-- Witness for C8: the empty frame is malformed, and a 29-byte frame with
version byte 7 is an unsupported version. -/
theorem frame_decode_error_cases_witness :
    decodeFrame [] = .error .ciphertextMalformed ∧
    decodeFrame (7 :: List.replicate 28 0) = .error .unsupportedVersion := by
  refine ⟨(frame_decode_error_cases []).1 (by decide), ?_⟩
  exact (frame_decode_error_cases (7 :: List.replicate 28 0)).2 (by decide) 7
    (List.replicate 28 0) rfl (by decide)

/-! ## Claim C5: scan guard before the target window -/

/-- C5: whenever the current chain height is below `target - PREFETCH`, a
reveal-scan attempt returns the "not yet" result (`null`) and issues zero
log-fetch calls (empty `getLogs` trace). -/
theorem reveal_scan_not_yet {α : Type} (oracle : Int → Int → Except Unit (List α))
    (parse : α → Option ParsedLog) (currentBlock tb prefetch forward chunkSize : Int)
    (h : currentBlock < tb - prefetch) :
    fetchRevealedPayload oracle parse currentBlock (some tb) prefetch forward chunkSize
      = (none, []) := by
  simp [fetchRevealedPayload, h]

/-- Witness for C5: `currentHeight = 100`, `target = 150`, `PREFETCH = 12`
(the defaults `SEARCH_FORWARD = 200`, `CHUNK_SIZE = 10`). -/
theorem reveal_scan_not_yet_witness :
    ((100 : Int) < 150 - 12) ∧
    fetchRevealedPayload (fun _ _ => Except.ok ([] : List Unit)) (fun _ => none)
      100 (some 150) 12 200 10 = (none, []) :=
  ⟨by decide, reveal_scan_not_yet _ _ 100 150 12 200 10 (by decide)⟩

/-! ## Claim C3: target-block overflow rejection -/

/-- An environment whose chain height makes any positive delay overflow
`uint40`. -/
def c3Env : CreateEnv :=
  { currentBlock := 2 ^ 40
    maxFeePerGas := some 1
    requestPrice := 0
    txSucceeds := true
    receiptOk := true
    createdRequestId := some 1
    txHash := "0xabc" }

/-- A creation request one block ahead. -/
def c3Req : MediaReleaseRequest :=
  { fileCid := "QmX"
    decryptionKey := "ab"
    blocksAhead := 1
    filename := none
    filetype := none
    filesize := none }

/-- C3 counterexample: the overflow rejection does *not* happen before any
network call — computing `targetBlock` already requires the
`provider.getBlockNumber()` RPC, so the trace at the moment of rejection is
non-empty. -/
theorem create_overflow_after_block_number_call :
    createMediaRelease c3Env c3Req = ([NetCall.getBlockNumber], .error .targetBlockOverflow) ∧
    (createMediaRelease c3Env c3Req).1 ≠ [] :=
  ⟨rfl, by decide⟩

/-- C3 amended: when `currentBlock + blocksAhead` exceeds `2^40 - 1`,
`createMediaRelease` rejects with `TargetBlockOverflow` after the single
block-number RPC and before any other network interaction (no fee query,
no price estimation, no transaction submission). -/
theorem create_overflow_rejected_with_single_call (env : CreateEnv)
    (request : MediaReleaseRequest)
    (h : env.currentBlock + request.blocksAhead > MAX_UINT40) :
    createMediaRelease env request
      = ([NetCall.getBlockNumber], .error .targetBlockOverflow) := by
  simp [createMediaRelease, h]

/-- Witness for the amended C3. -/
theorem create_overflow_rejected_with_single_call_witness :
    c3Env.currentBlock + c3Req.blocksAhead > MAX_UINT40 ∧
    createMediaRelease c3Env c3Req = ([NetCall.getBlockNumber], .error .targetBlockOverflow) :=
  ⟨by decide, create_overflow_rejected_with_single_call c3Env c3Req (by decide)⟩

/-! ## Claim C7: reveal payload serialization round trip -/

theorem payloadFields_ne_nil (r : MediaReleaseRequest) : payloadFields r ≠ [] := by
  simp [payloadFields]

theorem payloadFields_scalar (r : MediaReleaseRequest) :
    ∀ f ∈ payloadFields r, scalarVal f.2 := by
  intro f hf
  rw [payloadFields] at hf
  rcases List.mem_append.mp hf with h | h
  · rcases List.mem_append.mp h with h' | h'
    · rcases List.mem_append.mp h' with h'' | h''
      · rcases List.mem_cons.mp h'' with rfl | h3
        · exact Or.inl ⟨_, rfl⟩
        · rcases List.mem_singleton.mp h3 with rfl
          exact Or.inl ⟨_, rfl⟩
      · rcases hn : r.filename with _ | n <;> simp only [hn] at h''
        · cases h''
        · split_ifs at h''
          · cases h''
          · rcases List.mem_singleton.mp h'' with rfl
            exact Or.inl ⟨_, rfl⟩
    · rcases ht : r.filetype with _ | t <;> simp only [ht] at h'
      · cases h'
      · split_ifs at h'
        · cases h'
        · rcases List.mem_singleton.mp h' with rfl
          exact Or.inl ⟨_, rfl⟩
  · rcases hs : r.filesize with _ | s <;> simp only [hs] at h
    · cases h
    · rcases List.mem_singleton.mp h with rfl
      exact Or.inr ⟨_, rfl⟩

theorem payloadFields_get_k (r : MediaReleaseRequest) :
    (Json.obj (payloadFields r)).get? "k" = some (Json.str r.decryptionKey) := by
  rcases r with ⟨c, k, ba, fn, ft, fsz⟩
  rcases fn with _ | n <;> rcases ft with _ | t <;> rcases fsz with _ | s <;>
    simp [payloadFields, Json.get?] <;> split_ifs <;> simp [Json.get?]

theorem payloadFields_get_c (r : MediaReleaseRequest) :
    (Json.obj (payloadFields r)).get? "c" = some (Json.str r.fileCid) := by
  rcases r with ⟨c, k, ba, fn, ft, fsz⟩
  rcases fn with _ | n <;> rcases ft with _ | t <;> rcases fsz with _ | s <;>
    simp [payloadFields, Json.get?] <;> split_ifs <;> simp [Json.get?]

theorem payloadFields_get_n (r : MediaReleaseRequest) (n : String)
    (hn : r.filename = some n) (hne : n ≠ "") :
    (Json.obj (payloadFields r)).get? "n" = some (Json.str n) := by
  rcases r with ⟨c, k, ba, fn, ft, fsz⟩
  simp only at hn
  subst hn
  rcases ft with _ | t <;> rcases fsz with _ | s <;>
    simp [payloadFields, Json.get?, hne] <;> split_ifs <;> simp [Json.get?]

theorem payloadFields_get_t (r : MediaReleaseRequest) (t : String)
    (ht : r.filetype = some t) (hne : t ≠ "") :
    (Json.obj (payloadFields r)).get? "t" = some (Json.str t) := by
  rcases r with ⟨c, k, ba, fn, ft, fsz⟩
  simp only at ht
  subst ht
  rcases fn with _ | n <;> rcases fsz with _ | s <;>
    simp [payloadFields, Json.get?, hne] <;> split_ifs <;> simp [Json.get?]

theorem payloadFields_get_s (r : MediaReleaseRequest) (s : Nat)
    (hs : r.filesize = some s) :
    (Json.obj (payloadFields r)).get? "s" = some (Json.num (s : Int)) := by
  rcases r with ⟨c, k, ba, fn, ft, fsz⟩
  simp only at hs
  subst hs
  rcases fn with _ | n <;> rcases ft with _ | t <;>
    simp [payloadFields, Json.get?] <;> split_ifs <;> simp [Json.get?]

/-- The request whose locator is the empty string. -/
def c7Bad : MediaReleaseRequest :=
  { fileCid := ""
    decryptionKey := "k"
    blocksAhead := 1
    filename := none
    filetype := none
    filesize := none }

/-- C7 counterexample: for the payload built from key `"k"` and locator
`""`, parsing the serialized JSON does *not* recover the defined field `k`:
the truthiness gate `payload.k && payload.c` fails on the empty locator, so
the parser returns fallback metadata whose key is the whole JSON string
`{"k":"k","c":""}`, not `"k"`. -/
theorem roundtrip_fails_on_empty_locator :
    payloadJson c7Bad = "\x7b\"k\":\"k\",\"c\":\"\"\x7d" ∧
    decryptMetadata (fun s => s) "T" (payloadJson c7Bad) none
        = some (fallbackMeta (payloadJson c7Bad) "T") ∧
    (fallbackMeta (payloadJson c7Bad) "T").decryptionKey ≠ Json.str c7Bad.decryptionKey := by
  refine ⟨rfl, rfl, ?_⟩
  intro h
  rw [show (fallbackMeta (payloadJson c7Bad) "T").decryptionKey
      = Json.str (payloadJson c7Bad) from rfl] at h
  have := Json.str.inj h
  revert this
  decide

/-- C7 amended: for every reveal payload built from a *non-empty* hex key
and a *non-empty* content locator with optional filename, MIME type and
size, parsing the serialized JSON recovers the same values for the defined
field set: the parse yields exactly the built object, and the metadata
extraction returns the original key, locator, and any defined optional
fields (`s = 0` is defined and recovered as `0` via the `|| 0` default;
empty optional strings are omitted by the builder, hence not part of the
defined field set). -/
theorem payload_roundtrip (r : MediaReleaseRequest) (keccakHex : String → String)
    (nowIso : String) (hk : r.decryptionKey ≠ "") (hc : r.fileCid ≠ "") :
    parseJson (payloadJson r) = some (Json.obj (payloadFields r)) ∧
    decryptMetadata keccakHex nowIso (payloadJson r) none
      = some (metaFromPayload (Json.obj (payloadFields r)) nowIso) ∧
    (metaFromPayload (Json.obj (payloadFields r)) nowIso).decryptionKey
      = Json.str r.decryptionKey ∧
    (metaFromPayload (Json.obj (payloadFields r)) nowIso).fileCid = Json.str r.fileCid ∧
    (∀ n, r.filename = some n → n ≠ "" →
      (metaFromPayload (Json.obj (payloadFields r)) nowIso).filename = Json.str n) ∧
    (∀ t, r.filetype = some t → t ≠ "" →
      (metaFromPayload (Json.obj (payloadFields r)) nowIso).type = Json.str t) ∧
    (∀ s, r.filesize = some s →
      (metaFromPayload (Json.obj (payloadFields r)) nowIso).size = Json.num (s : Int)) := by
  have hparse : parseJson (payloadJson r) = some (Json.obj (payloadFields r)) :=
    parseJson_serialized_obj (payloadFields r) (payloadFields_ne_nil r)
      (payloadFields_scalar r)
  have hgk := payloadFields_get_k r
  have hgc := payloadFields_get_c r
  refine ⟨hparse, ?_, ?_, ?_, ?_, ?_, ?_⟩
  · have htr : (Json.obj (payloadFields r)).truthy = true := rfl
    have hkt : jsTruthy ((Json.obj (payloadFields r)).get? "k") = true := by
      rw [hgk]
      simp [jsTruthy, Json.truthy, hk]
    have hct : jsTruthy ((Json.obj (payloadFields r)).get? "c") = true := by
      rw [hgc]
      simp [jsTruthy, Json.truthy, hc]
    simp [decryptMetadata, hparse, htr, hkt, hct]
  · rw [show (metaFromPayload (Json.obj (payloadFields r)) nowIso).decryptionKey
        = ((Json.obj (payloadFields r)).get? "k").getD Json.null from rfl, hgk]
    rfl
  · rw [show (metaFromPayload (Json.obj (payloadFields r)) nowIso).fileCid
        = ((Json.obj (payloadFields r)).get? "c").getD Json.null from rfl, hgc]
    rfl
  · intro n hn hne
    rw [show (metaFromPayload (Json.obj (payloadFields r)) nowIso).filename
        = jsOr ((Json.obj (payloadFields r)).get? "n") (Json.str "encrypted-file") from rfl,
      payloadFields_get_n r n hn hne]
    simp [jsOr, Json.truthy, hne]
  · intro t ht hne
    rw [show (metaFromPayload (Json.obj (payloadFields r)) nowIso).type
        = jsOr ((Json.obj (payloadFields r)).get? "t") (Json.str "application/octet-stream")
        from rfl,
      payloadFields_get_t r t ht hne]
    simp [jsOr, Json.truthy, hne]
  · intro s hs
    rw [show (metaFromPayload (Json.obj (payloadFields r)) nowIso).size
        = jsOr ((Json.obj (payloadFields r)).get? "s") (Json.num 0) from rfl,
      payloadFields_get_s r s hs]
    by_cases h0 : s = 0
    · subst h0
      simp [jsOr, Json.truthy]
    · simp [jsOr, Json.truthy, h0]

/-- A fully-populated request for the round-trip witness. -/
def c7Good : MediaReleaseRequest :=
  { fileCid := "QmX"
    decryptionKey := "ab12"
    blocksAhead := 50
    filename := some "f.png"
    filetype := some "image/png"
    filesize := some 7 }

/-- Witness for the amended C7 at a fully-populated request. -/
theorem payload_roundtrip_witness :
    parseJson (payloadJson c7Good) = some (Json.obj (payloadFields c7Good)) ∧
    (metaFromPayload (Json.obj (payloadFields c7Good)) "T").decryptionKey = Json.str "ab12" ∧
    (metaFromPayload (Json.obj (payloadFields c7Good)) "T").fileCid = Json.str "QmX" ∧
    (metaFromPayload (Json.obj (payloadFields c7Good)) "T").filename = Json.str "f.png" ∧
    (metaFromPayload (Json.obj (payloadFields c7Good)) "T").type = Json.str "image/png" ∧
    (metaFromPayload (Json.obj (payloadFields c7Good)) "T").size = Json.num 7 := by
  obtain ⟨h1, _, h3, h4, h5, h6, h7⟩ :=
    payload_roundtrip c7Good (fun s => s) "T" (by decide) (by decide)
  exact ⟨h1, h3, h4, h5 "f.png" rfl (by decide), h6 "image/png" rfl (by decide), h7 7 rfl⟩

/-! ## Claim C10: verification only with an explicit release -/

/-- A structured reveal payload string. -/
def c10Json : String := "\x7b\"k\":\"ab\",\"c\":\"Qm\"\x7d"

/-- Its parse. -/
def c10Payload : Json := Json.obj [("k", Json.str "ab"), ("c", Json.str "Qm")]

/-- C10: called without a release record — the viewer's calling convention
in `handleReleaseSelect` — `decryptMetadata`'s result does not depend on
the hash function at all (no hash comparison is performed), and every
payload parsing with truthy `k` and `c` is accepted and returned as
structured metadata; with a release whose `fileCidHash` is empty the result
is again hash-independent, so the integrity check can only run when a
release with a non-empty `fileCidHash` is explicitly supplied. -/
theorem decryptMetadata_no_release_skips_hash (h₁ h₂ : String → String)
    (nowIso json : String) :
    decryptMetadata h₁ nowIso json none = decryptMetadata h₂ nowIso json none ∧
    (∀ rel : MediaReleaseInfo, rel.fileCidHash = "" →
      decryptMetadata h₁ nowIso json (some rel) = decryptMetadata h₂ nowIso json (some rel)) ∧
    (∀ payload, parseJson json = some payload → payload.truthy = true →
      jsTruthy (payload.get? "k") = true → jsTruthy (payload.get? "c") = true →
      decryptMetadata h₁ nowIso json none = some (metaFromPayload payload nowIso)) := by
  refine ⟨?_, ?_, ?_⟩
  · rcases hp : parseJson json with _ | payload <;> simp [decryptMetadata, hp]
  · intro rel hrel
    rcases hp : parseJson json with _ | payload <;> simp [decryptMetadata, hp, hrel]
  · intro payload hp htr hk hc
    simp [decryptMetadata, hp, htr, hk, hc]

/-- Witness for C10: a concrete payload, two distinct hash functions. -/
theorem decryptMetadata_no_release_skips_hash_witness :
    decryptMetadata (fun _ => "0x01") "T" c10Json none
        = decryptMetadata (fun _ => "0x02") "T" c10Json none ∧
    decryptMetadata (fun _ => "0x01") "T" c10Json none
        = some (metaFromPayload c10Payload "T") := by
  obtain ⟨h1, _, h3⟩ :=
    decryptMetadata_no_release_skips_hash (fun _ => "0x01") (fun _ => "0x02") "T" c10Json
  exact ⟨h1, h3 c10Payload rfl rfl rfl rfl⟩

/-! ## Claim C2: hash-mismatch rejection -/

/-- A payload that parses as JSON containing a locator field `c` but no key
`k`. -/
def c2NoKeyJson : String := "\x7b\"c\":\"cid\"\x7d"

/-- A stored release whose `fileCidHash` matches nothing the model hash
produces. -/
def c2Rel : MediaReleaseInfo :=
  { requestId := 2
    creator := "0xabc"
    fileCidHash := "0xother"
    unlockAtBlock := 5
    isRevealed := false
    revealed := none
    currentBlock := none
    isUnlocked := none }

/-- A hash oracle whose output never equals `c2Rel.fileCidHash`. -/
def c2Hash : String → String := fun _ => "0xhash"

/-- C2 counterexample: a candidate payload that parses as UTF-8 JSON
containing a locator field `c` whose hash differs from the stored
`fileCidHash` is *not* always rejected — when the payload lacks a truthy
`k`, the gate `payload.k && payload.c` fails and `decryptMetadata` returns
fallback metadata (the whole string as key) without ever comparing
hashes. -/
theorem hash_mismatch_not_rejected_without_key :
    parseJson c2NoKeyJson = some (Json.obj [("c", Json.str "cid")]) ∧
    lowerString (c2Hash "cid") ≠ lowerString c2Rel.fileCidHash ∧
    decryptMetadata c2Hash "T" c2NoKeyJson (some c2Rel)
        = some (fallbackMeta c2NoKeyJson "T") :=
  ⟨rfl, by decide, rfl⟩

/-- C2 amended: for every candidate payload that parses as UTF-8 JSON with
a *truthy key `k`* and a non-empty locator string `c`, if the keccak-style
hash of the locator differs (case-insensitively) from the stored non-empty
`fileCidHash`, the verifier rejects the candidate (`null`, no metadata);
and the selection flow never writes the `releases` store, so verification
leaves every record's `isRevealed` unchanged.  (A payload without a truthy
`k` takes the fallback path and bypasses the hash check, per the
counterexample.) -/
theorem hash_mismatch_rejected (keccakHex : String → String) (nowIso json cs : String)
    (payload : Json) (rel : MediaReleaseInfo)
    (hparse : parseJson json = some payload)
    (hk : jsTruthy (payload.get? "k") = true)
    (hc : payload.get? "c" = some (Json.str cs))
    (hcs : cs ≠ "")
    (hfch : rel.fileCidHash ≠ "")
    (hmis : lowerString (keccakHex cs) ≠ lowerString rel.fileCidHash) :
    decryptMetadata keccakHex nowIso json (some rel) = none ∧
    (∀ st r, (handleReleaseSelect keccakHex nowIso st r).releases = st.releases) := by
  constructor
  · have htruthy : payload.truthy = true := by
      cases payload <;> simp [Json.get?, Json.truthy] at hc ⊢
    have hctruthy : jsTruthy (some (Json.str cs)) = true := by
      simp [jsTruthy, Json.truthy, hcs]
    simp [decryptMetadata, hparse, htruthy, hk, hctruthy, hc, hfch, hmis]
  · intro st r
    unfold handleReleaseSelect
    split
    · split
      · split <;> rfl
      · rfl
    · rfl

/-- A payload with both a truthy key and locator. -/
def c2GoodJson : String := "\x7b\"k\":\"ab\",\"c\":\"cid\"\x7d"

/-- Its parse. -/
def c2Payload : Json := Json.obj [("k", Json.str "ab"), ("c", Json.str "cid")]

/-- Witness for the amended C2. -/
theorem hash_mismatch_rejected_witness :
    decryptMetadata c2Hash "T" c2GoodJson (some c2Rel) = none ∧
    (handleReleaseSelect c2Hash "T" ⟨[c2Rel], none, none⟩ c2Rel).releases = [c2Rel] := by
  obtain ⟨h1, h2⟩ := hash_mismatch_rejected c2Hash "T" c2GoodJson "cid" c2Payload c2Rel
    rfl rfl rfl (by decide) (by decide) (by decide)
  exact ⟨h1, h2 ⟨[c2Rel], none, none⟩ c2Rel⟩

/-! ## Claim C9: countdown strategies -/

/-- C9 (code bug): on the block-count path the code computes
`release.unlockAtBlock - release.currentBlock` where `unlockAtBlock` is a
`bigint` and `currentBlock` a `number`, which throws a `TypeError` instead
of producing the claimed `max(0, unlockAtBlock - currentBlockObserved) *
avgBlockSeconds` countdown.  At `unlockAtBlock = 150n`,
`currentBlock = 100`, with no stored creation record, the code evaluates to
a thrown exception (`none`) where the claim prescribes the 100-second
countdown `"00:01:40"`. -/
theorem countdown_blockcount_throws_on_bigint_mix :
    getTimeRemaining ⟨none, none, none⟩ (JsNum.big 150) (some (JsNum.num 100)) 0 = none ∧
    formatHMS (((150 - 100) * avgBlockSeconds).toNat) = "00:01:40" :=
  ⟨rfl, rfl⟩

end MediaReleaseKit
